import Mathlib

/-!
# ecsdog: a verification development

A shallow embedding of `ecsdog.go` (package `ecsdog`): the batcher `chunk`, the
metric emitter `Scraper.gauge`, the per-service pass `Scraper.scrape`, the scrape
cycle `Scraper.Scrape` and the inventory refresh `Scraper.updateServices` /
`Scraper.fetchServices`.

Modelling conventions.

* A Go `[]string` is a `List String`.  Every `append` of the source is applied either
  to a composite literal (`tags`, `[]string{}`), whose capacity equals its length, so
  that `append` allocates a fresh array, or to the result of such an `append` that is
  only read afterwards (`dtags`); the value semantics of `++` is therefore the
  semantics of the source.
* A Go `map[string]T` is an association list with unique keys (`mapGet`, `mapSet`);
  the unspecified iteration order of `range` over a map is a parameter of the
  environment (`Env.rangeOrder`), constrained only to be a permutation.
* `float64` is an abstract type `F`; the conversion `float64(n)` of an integer is the
  environment's `Env.float64`.
* The two collaborators (the ECS client and the statsd client) and the library
  function `strings.ToLower` are fields of the environment `Env`.  A collaborator's
  answer may depend on every call made so far; the calls are recorded in a trace.
* Go `error` values are `Option String` (`none` is `nil`).
* The pointers of the AWS SDK structures are taken to be non-nil, as the source does
  (it dereferences them unconditionally).  `log.Printf` lines and the mutex are not
  modelled.
-/

namespace Ecsdog

/-! ## Batcher -/

/-- The constant `lim := 10` of `chunk`. -/
def lim : Nat := 10

/-- The `for len(arr) >= lim` loop of `chunk`, on the pair `(arr, chunks)`.  The first
argument bounds the number of iterations; `chunk` passes `len(arr)`, which the loop
never reaches (`chunkLoop_rest_lt`). -/
def chunkLoop : Nat → List String → List (List String) → List String × List (List String)
  | 0, arr, chunks => (arr, chunks)
  | fuel + 1, arr, chunks =>
    if lim ≤ arr.length then
      chunkLoop fuel (arr.drop lim) (chunks ++ [arr.take lim])
    else
      (arr, chunks)

/-- The function `chunk`. -/
def chunk (arr : List String) : List (List String) :=
  let r := chunkLoop arr.length arr []
  if 0 < r.1.length then r.2 ++ [r.1] else r.2

/-! ## Go maps -/

/-- The lookup `v, ok := m[k]` in a Go map: `none` when the key is absent. -/
def mapGet {α : Type} : List (String × α) → String → Option α
  | [], _ => none
  | (k', v) :: rest, k => if k' = k then some v else mapGet rest k

/-- The assignment `m[k] = v` in a Go map. -/
def mapSet {α : Type} : List (String × α) → String → α → List (String × α)
  | [], k, v => [(k, v)]
  | (k', v') :: rest, k, v => if k' = k then (k, v) :: rest else (k', v') :: mapSet rest k v

/-- The keys present in a Go map. -/
def mapKeys {α : Type} (m : List (String × α)) : List String := m.map Prod.fst

/-! ## Data model -/

/-- A Go `time.Time`, as an abstract instant. -/
abbrev Time := Int

/-- The fields of `ecs.Deployment` read by `scrape`. -/
structure Deployment where
  Id : String
  Status : String
  DesiredCount : Int
  PendingCount : Int
  RunningCount : Int
deriving DecidableEq

/-- The fields of `ecs.ServiceEvent` read by `scrape`. -/
structure ServiceEvent where
  Id : String
  Message : String
  CreatedAt : Time
deriving DecidableEq

/-- The fields of `ecs.Service` read by `scrape`. -/
structure Service where
  ServiceName : String
  Status : String
  DesiredCount : Int
  PendingCount : Int
  RunningCount : Int
  Deployments : List Deployment
  Events : List ServiceEvent
deriving DecidableEq

/-- The fields of `ecs.Failure` read by `Scrape`. -/
structure Failure where
  Arn : String
  Reason : String
deriving DecidableEq

/-- The fields of `ecs.DescribeServicesOutput` read by `Scrape`. -/
structure DescribeServicesOutput where
  Services : List Service
  Failures : List Failure
deriving DecidableEq

/-- What one call of `ListServicesPages` does: the pages (`ServiceArns`) it hands to the
callback, in order, and the error it returns at the end. -/
structure ListServicesResult where
  pages : List (List String)
  err : Option String
deriving DecidableEq

/-- The arguments of one `statsd.Client.Gauge` call. -/
structure GaugeCall (F : Type) where
  name : String
  value : F
  tags : List String
  rate : F
deriving DecidableEq

/-- The fields of `statsd.Event` set by `scrape`. -/
structure StatsdEvent where
  Title : String
  Text : String
  Timestamp : Time
  AggregationKey : String
  Tags : List String
deriving DecidableEq

/-- One call on a collaborator.  The `id` of `event` is a ghost label: the id of the
ECS event record that caused the send (it is not part of what is sent). -/
inductive Call (F : Type) where
  | gauge (g : GaugeCall F)
  | event (id : String) (e : StatsdEvent)
  | describeServices (cluster : String) (services : List String)
  | listServicesPages (cluster : String)
deriving DecidableEq

/-- The environment of the scraper: the two collaborators, whose answer to a call may
depend on the calls made before it (the first argument), and what the Go runtime and
library supply. -/
structure Env (F : Type) where
  /-- The conversion `float64(n)` of an integer. -/
  float64 : Int → F
  /-- The library function `strings.ToLower`. -/
  toLower : String → String
  /-- The answer of `ecs.DescribeServices` for a cluster and a list of services. -/
  describeServices : List (Call F) → String → List String → Except String DescribeServicesOutput
  /-- The behaviour of `ecs.ListServicesPages` for a cluster. -/
  listServicesPages : List (Call F) → String → ListServicesResult
  /-- The error returned by `statsd.Client.Gauge`. -/
  statsdGauge : List (Call F) → GaugeCall F → Option String
  /-- The error returned by `statsd.Client.Event`. -/
  statsdEvent : List (Call F) → StatsdEvent → Option String
  /-- The order in which `range` visits the entries of a map. -/
  rangeOrder : List (Call F) → List (String × Int) → List (String × Int)
  /-- A `range` over a map visits every entry once. -/
  rangeOrder_perm : ∀ (h : List (Call F)) (m : List (String × Int)), (rangeOrder h m).Perm m

/-- The constant `DefaultNamespace`. -/
def DefaultNamespace : String := "aws.ecs"

/-- The struct `Scraper`.  The field `calls` stands for the two clients `ecs` and
`statsd`: it records the calls made on them so far. -/
structure Scraper (F : Type) where
  Cluster : String
  services : List String
  events : List (String × Bool)
  calls : List (Call F)
deriving DecidableEq

/-- The scraper built by the function `Scrape(cluster, addr)`: no service, an empty
`events` map, no call made yet. -/
def newScraper (F : Type) (cluster : String) : Scraper F :=
  { Cluster := cluster, services := [], events := [], calls := [] }

namespace Scraper

variable {F : Type}

/-! ## Metric emitter -/

/-- The method `Scraper.gauge`: the new state and the error returned. -/
def gauge (env : Env F) (s : Scraper F) (name : String) (value : F) (tags : List String)
    (rate : F) : Scraper F × Option String :=
  let tags := tags ++ ["cluster_name:" ++ s.Cluster]
  let g : GaugeCall F :=
    { name := ".".intercalate [DefaultNamespace, name], value := value, tags := tags, rate := rate }
  ({ s with calls := s.calls ++ [Call.gauge g] }, env.statsdGauge s.calls g)

/-- The call `s.statsd.Event(e)` made for the ECS event record `id`. -/
def sendEvent (env : Env F) (s : Scraper F) (id : String) (e : StatsdEvent) :
    Scraper F × Option String :=
  ({ s with calls := s.calls ++ [Call.event id e] }, env.statsdEvent s.calls e)

/-! ## Scrape cycle -/

/-- The loop `for _, deployment := range service.Deployments` of `scrape`, on the pair
of the scraper and the map `counts`.  The errors of `gauge` are discarded. -/
def scrapeDeployments (env : Env F) (tags : List String) :
    List Deployment → Scraper F → List (String × Int) → Scraper F × List (String × Int)
  | [], s, counts => (s, counts)
  | deployment :: rest, s, counts =>
    let counts := mapSet counts deployment.Status ((mapGet counts deployment.Status).getD 0 + 1)
    let dtags := tags ++ ["deployment:" ++ deployment.Id, "deployment_status:" ++ deployment.Status]
    let s := (gauge env s "service.deployment.desired" (env.float64 deployment.DesiredCount) dtags
      (env.float64 1)).1
    let s := (gauge env s "service.deployment.pending" (env.float64 deployment.PendingCount) dtags
      (env.float64 1)).1
    let s := (gauge env s "service.deployment.running" (env.float64 deployment.RunningCount) dtags
      (env.float64 1)).1
    scrapeDeployments env tags rest s counts

/-- The loop `for status, count := range counts` of `scrape`, over the entries in the
order of the iteration. -/
def scrapeCounts (env : Env F) (tags : List String) :
    List (String × Int) → Scraper F → Scraper F
  | [], s => s
  | (status, count) :: rest, s =>
    scrapeCounts env tags rest
      (gauge env s ("service.deployments." ++ env.toLower status) (env.float64 count) tags
        (env.float64 1)).1

/-- The loop `for _, event := range service.Events` of `scrape`.  The error of
`statsd.Event` is discarded. -/
def scrapeEvents (env : Env F) (service : Service) (tags : List String) :
    List ServiceEvent → Scraper F → Scraper F
  | [], s => s
  | event :: rest, s =>
    if (mapGet s.events event.Id).isNone then
      let s := (sendEvent env s event.Id
        { Title := event.Message
          Text := event.Message
          Timestamp := event.CreatedAt
          AggregationKey := service.ServiceName
          Tags := tags ++ ["ecs"] }).1
      let s := { s with events := mapSet s.events event.Id true }
      scrapeEvents env service tags rest s
    else
      scrapeEvents env service tags rest s

/-- The method `Scraper.scrape`: the new state and the error returned. -/
def scrape (env : Env F) (s : Scraper F) (service : Service) : Scraper F × Option String :=
  let tags := ["service_name:" ++ service.ServiceName, "service_status:" ++ service.Status]
  let s := (gauge env s "service.desired" (env.float64 service.DesiredCount) tags (env.float64 1)).1
  let s := (gauge env s "service.pending" (env.float64 service.PendingCount) tags (env.float64 1)).1
  let s := (gauge env s "service.running" (env.float64 service.RunningCount) tags (env.float64 1)).1
  let r := scrapeDeployments env tags service.Deployments s []
  let s := r.1
  let counts := r.2
  let s := (gauge env s "service.deployments" (env.float64 service.Deployments.length) tags
    (env.float64 1)).1
  let s := scrapeCounts env tags (env.rangeOrder s.calls counts) s
  let s := scrapeEvents env service tags service.Events s
  (s, none)

/-- The loop `for _, service := range resp.Services` of `Scrape`. -/
def scrapeServices (env : Env F) : List Service → Scraper F → Scraper F × Option String
  | [], s => (s, none)
  | service :: rest, s =>
    match scrape env s service with
    | (s, some err) => (s, some err)
    | (s, none) => scrapeServices env rest s

/-- The loop `for _, services := range chunk(s.services)` of `Scrape`. -/
def scrapeChunks (env : Env F) : List (List String) → Scraper F → Scraper F × Option String
  | [], s => (s, none)
  | services :: rest, s =>
    let resp := env.describeServices s.calls s.Cluster services
    let s := { s with calls := s.calls ++ [Call.describeServices s.Cluster services] }
    match resp with
    | .error err => (s, some err)
    | .ok resp =>
      match scrapeServices env resp.Services s with
      | (s, some err) => (s, some err)
      | (s, none) => scrapeChunks env rest s

/-- The method `Scraper.Scrape`: the new state and the error returned. -/
def Scrape (env : Env F) (s : Scraper F) : Scraper F × Option String :=
  let s := (gauge env s "services" (env.float64 s.services.length) [] (env.float64 1)).1
  scrapeChunks env (chunk s.services) s

/-! ## Service inventory -/

/-- The method `Scraper.fetchServices`: the new state, the list returned and the error
returned.  The callback appends the identifiers of every page it is given. -/
def fetchServices (env : Env F) (s : Scraper F) : Scraper F × List String × Option String :=
  let r := env.listServicesPages s.calls s.Cluster
  let services := r.pages.foldl (fun services p => p.foldl (fun services arn => services ++ [arn]) services) []
  ({ s with calls := s.calls ++ [Call.listServicesPages s.Cluster] }, services, r.err)

/-- The method `Scraper.updateServices`: the new state and the error returned. -/
def updateServices (env : Env F) (s : Scraper F) : Scraper F × Option String :=
  let r := fetchServices env s
  ({ r.1 with services := r.2.1 }, r.2.2)

/-! ## Scheduler loop -/

/-- The loop `for range t` of `Start`, over the first `n` ticks of the timer. -/
def ticks (env : Env F) : Nat → Scraper F → Scraper F × Option String
  | 0, s => (s, none)
  | n + 1, s =>
    match Scrape env s with
    | (s, some err) => (s, some err)
    | (s, none) => ticks env n s

/-- The method `Scraper.Start`, observed over the first `n` ticks of the timer. -/
def Start (env : Env F) (n : Nat) (s : Scraper F) : Scraper F × Option String :=
  match updateServices env s with
  | (s, some err) => (s, some err)
  | (s, none) => ticks env n s

end Scraper

/-! ## The emissions of one service, in closed form

These definitions follow the description of the scrape cycle in the specification;
the theorems below compare them with the calls made by `Scraper.scrape`. -/

section Emissions

variable {F : Type}

/-- A gauge as the metric emitter sends it: the name under the namespace `aws.ecs.`,
the tag `cluster_name` after the tags given, the rate 1. -/
def gaugeCall (env : Env F) (cluster name : String) (value : F) (tags : List String) : Call F :=
  Call.gauge
    { name := "aws.ecs." ++ name
      value := value
      tags := tags ++ ["cluster_name:" ++ cluster]
      rate := env.float64 1 }

/-- The two tags of a service: `service_name` and `service_status`. -/
def serviceTags (service : Service) : List String :=
  ["service_name:" ++ service.ServiceName, "service_status:" ++ service.Status]

/-- The tags of a deployment of a service: the service tags, then `deployment` and
`deployment_status`. -/
def deploymentTags (service : Service) (d : Deployment) : List String :=
  serviceTags service ++ ["deployment:" ++ d.Id, "deployment_status:" ++ d.Status]

/-- The gauges `service.desired`, `service.pending` and `service.running`. -/
def serviceGauges (env : Env F) (cluster : String) (service : Service) : List (Call F) :=
  [gaugeCall env cluster "service.desired" (env.float64 service.DesiredCount) (serviceTags service),
   gaugeCall env cluster "service.pending" (env.float64 service.PendingCount) (serviceTags service),
   gaugeCall env cluster "service.running" (env.float64 service.RunningCount) (serviceTags service)]

/-- The gauges `service.deployment.desired/pending/running` of one deployment. -/
def deploymentGauges (env : Env F) (cluster : String) (service : Service) (d : Deployment) :
    List (Call F) :=
  [gaugeCall env cluster "service.deployment.desired" (env.float64 d.DesiredCount)
     (deploymentTags service d),
   gaugeCall env cluster "service.deployment.pending" (env.float64 d.PendingCount)
     (deploymentTags service d),
   gaugeCall env cluster "service.deployment.running" (env.float64 d.RunningCount)
     (deploymentTags service d)]

/-- The gauge `service.deployments`: the number of deployments of the service. -/
def deploymentsGauge (env : Env F) (cluster : String) (service : Service) : Call F :=
  gaugeCall env cluster "service.deployments" (env.float64 service.Deployments.length)
    (serviceTags service)

/-- The gauge `service.deployments.<status>` for a status and its count. -/
def statusGauge (env : Env F) (cluster : String) (service : Service) (entry : String × Int) :
    Call F :=
  gaugeCall env cluster ("service.deployments." ++ env.toLower entry.1) (env.float64 entry.2)
    (serviceTags service)

/-- The number of deployments with a given status. -/
def statusCount (deployments : List Deployment) (status : String) : Nat :=
  (deployments.map (fun d => d.Status)).count status

/-- The distinct statuses of a list of deployments, each with the number of deployments
that have it. -/
def statusTally (deployments : List Deployment) : List (String × Int) :=
  (deployments.map (fun d => d.Status)).dedup.map
    (fun status => (status, (statusCount deployments status : Int)))

/-- The map `counts` of `scrape` after the deployments given, starting from `counts`:
the second component of `Scraper.scrapeDeployments`. -/
def countsAfter : List Deployment → List (String × Int) → List (String × Int)
  | [], counts => counts
  | d :: rest, counts =>
    countsAfter rest (mapSet counts d.Status ((mapGet counts d.Status).getD 0 + 1))

/-- The discrete event sent for an event record of a service. -/
def eventCall (service : Service) (ev : ServiceEvent) : Call F :=
  Call.event ev.Id
    { Title := ev.Message
      Text := ev.Message
      Timestamp := ev.CreatedAt
      AggregationKey := service.ServiceName
      Tags := serviceTags service ++ ["ecs"] }

/-- The event records to report, given the identifiers seen so far: a record is
reported when its identifier has not been seen, and is seen from then on. -/
def newEvents : List String → List ServiceEvent → List ServiceEvent
  | _, [] => []
  | seen, ev :: rest =>
    if ev.Id ∈ seen then newEvents seen rest else ev :: newEvents (seen ++ [ev.Id]) rest

/-- The calls one pass of `scrape` over a service adds, in order, for a scraper whose
cluster is `cluster`, that has made the calls `calls` and has seen the event
identifiers `seen`. -/
def serviceCalls (env : Env F) (cluster : String) (calls : List (Call F)) (seen : List String)
    (service : Service) : List (Call F) :=
  let fixed := serviceGauges env cluster service
    ++ service.Deployments.flatMap (deploymentGauges env cluster service)
    ++ [deploymentsGauge env cluster service]
  fixed
    ++ (env.rangeOrder (calls ++ fixed) (countsAfter service.Deployments [])).map
        (statusGauge env cluster service)
    ++ (newEvents seen service.Events).map (eventCall service)

/-- The calls `scrape` adds over a list of services, one after the other. -/
def servicesCalls (env : Env F) (cluster : String) :
    List (Call F) → List String → List Service → List (Call F)
  | _, _, [] => []
  | calls, seen, service :: rest =>
    serviceCalls env cluster calls seen service
      ++ servicesCalls env cluster (calls ++ serviceCalls env cluster calls seen service)
          (seen ++ (newEvents seen service.Events).map (fun ev => ev.Id)) rest

/-- The identifiers of the event records for which an event was sent, in order. -/
def eventIds (calls : List (Call F)) : List String :=
  calls.filterMap (fun c => match c with
    | Call.event id _ => some id
    | _ => none)

/-- The gauges sent, in order. -/
def gaugeCalls (calls : List (Call F)) : List (GaugeCall F) :=
  calls.filterMap (fun c => match c with
    | Call.gauge g => some g
    | _ => none)

/-- The status queries made, in order: the cluster and the identifiers asked for in
each. -/
def describeCalls (calls : List (Call F)) : List (String × List String) :=
  calls.filterMap (fun c => match c with
    | Call.describeServices cluster services => some (cluster, services)
    | _ => none)

/-- The services resolved in one cycle over an inventory, when the status query for a
batch `b` of the cluster answers `snap cluster b`. -/
def resolvedServices (snap : String → List String → DescribeServicesOutput) (cluster : String)
    (inventory : List String) : List Service :=
  (chunk inventory).flatMap (fun b => (snap cluster b).Services)

/-- The event deduplication invariant of a scraper: no event record was reported
twice, and every record reported is in the seen-set `events`. -/
def Deduplicated (s : Scraper F) : Prop :=
  (eventIds s.calls).Nodup ∧ ∀ id ∈ eventIds s.calls, id ∈ mapKeys s.events

/-- The scraper `r` continues the scraper `s`: same cluster, the calls of `s` followed
by further calls, and the seen-set of `s` followed by exactly the identifiers reported
by those further calls, each of them once and none of them seen by `s`. -/
def Continues (s r : Scraper F) : Prop :=
  r.Cluster = s.Cluster ∧
  ∃ d : List (Call F),
    r.calls = s.calls ++ d ∧
    mapKeys r.events = mapKeys s.events ++ eventIds d ∧
    (eventIds d).Nodup ∧
    ∀ id ∈ eventIds d, id ∉ mapKeys s.events

end Emissions

/-! ## Sample environments and inputs -/

/-- A table for `strings.ToLower` on the deployment statuses of the samples. -/
def sampleLower (status : String) : String :=
  if status = "ACTIVE" then "active"
  else if status = "PRIMARY" then "primary"
  else status

/-- A service with three deployments, of statuses ACTIVE, ACTIVE and PRIMARY, and one
event record. -/
def sampleService : Service :=
  { ServiceName := "web"
    Status := "ACTIVE"
    DesiredCount := 4
    PendingCount := 1
    RunningCount := 3
    Deployments :=
      [{ Id := "ecs-svc/1", Status := "ACTIVE", DesiredCount := 1, PendingCount := 0, RunningCount := 1 },
       { Id := "ecs-svc/2", Status := "ACTIVE", DesiredCount := 1, PendingCount := 0, RunningCount := 1 },
       { Id := "ecs-svc/3", Status := "PRIMARY", DesiredCount := 2, PendingCount := 1, RunningCount := 1 }]
    Events := [{ Id := "ev-1", Message := "(service web) has started 1 tasks", CreatedAt := 1500000000 }] }

/-- The answer of the sample cluster to a status query: the sample service when it is
asked for, nothing else. -/
def sampleSnapshot (_cluster : String) (ids : List String) : DescribeServicesOutput :=
  { Services := if "arn:web" ∈ ids then [sampleService] else [], Failures := [] }

/-- An environment in which every call succeeds: `float64` is the identity on the
integers, a `range` visits the entries in the order of insertion. -/
def sampleEnv : Env Int :=
  { float64 := fun n => n
    toLower := sampleLower
    describeServices := fun _ cluster ids => Except.ok (sampleSnapshot cluster ids)
    listServicesPages := fun _ _ => { pages := [["arn:web"]], err := none }
    statsdGauge := fun _ _ => none
    statsdEvent := fun _ _ => none
    rangeOrder := fun _ m => m
    rangeOrder_perm := fun _ m => List.Perm.refl m }

/-- The sample environment with a service listing that fails after a first page. -/
def listFailsEnv : Env Int :=
  { sampleEnv with
    listServicesPages := fun _ _ => { pages := [["arn:web"]], err := some "RequestError: send request failed" } }

/-- The sample environment with a metrics sink on which every send fails. -/
def sinkFailsEnv : Env Int :=
  { sampleEnv with
    statsdGauge := fun _ _ => some "write udp: connection refused"
    statsdEvent := fun _ _ => some "write udp: connection refused" }

/-- The sample environment with a status query that fails for the batch `["arn:k"]`. -/
def describeFailsEnv : Env Int :=
  { sampleEnv with
    describeServices := fun _ cluster ids =>
      if ids = ["arn:k"] then Except.error "ClusterNotFoundException"
      else Except.ok (sampleSnapshot cluster ids) }

/-- A scraper of the cluster `prod` that knows two services and has made no call. -/
def sampleScraper : Scraper Int :=
  { Cluster := "prod", services := ["arn:api", "arn:web"], events := [], calls := [] }

/-- A scraper of the cluster `prod` with an inventory of eleven services, the second
batch of which is `["arn:k"]`. -/
def elevenScraper : Scraper Int :=
  { Cluster := "prod"
    services := ["arn:a", "arn:b", "arn:c", "arn:d", "arn:e", "arn:f", "arn:g", "arn:h",
      "arn:i", "arn:web", "arn:k"]
    events := []
    calls := [] }

/-- A scraper of the cluster `prod` with an inventory of 25 services and no call made. -/
def twentyFiveScraper : Scraper Int :=
  { Cluster := "prod"
    services := ["arn:s01", "arn:s02", "arn:s03", "arn:s04", "arn:s05", "arn:s06", "arn:s07",
      "arn:s08", "arn:s09", "arn:web", "arn:s11", "arn:s12", "arn:s13", "arn:s14", "arn:s15",
      "arn:s16", "arn:s17", "arn:s18", "arn:s19", "arn:s20", "arn:s21", "arn:s22", "arn:s23",
      "arn:s24", "arn:s25"]
    events := []
    calls := [] }

/-- The first batch of the inventory of `elevenScraper`. -/
def elevenFirstBatch : List String :=
  ["arn:a", "arn:b", "arn:c", "arn:d", "arn:e", "arn:f", "arn:g", "arn:h", "arn:i", "arn:web"]

/-- The scraper `elevenScraper` after the inventory-size gauge and its first batch, in
the environment `describeFailsEnv`. -/
def elevenAfterFirstBatch : Scraper Int :=
  (Scraper.scrapeChunks describeFailsEnv [elevenFirstBatch]
    (Scraper.gauge describeFailsEnv elevenScraper "services" 11 [] 1).1).1

/-! ## Batcher: lemmas -/

theorem chunkLoop_acc (fuel : Nat) (arr : List String) (chunks : List (List String)) :
    chunkLoop fuel arr chunks = ((chunkLoop fuel arr []).1, chunks ++ (chunkLoop fuel arr []).2) := by
  induction fuel generalizing arr chunks with
  | zero => simp [chunkLoop]
  | succ n ih =>
    unfold chunkLoop
    split
    · rw [ih (arr.drop lim) (chunks ++ [arr.take lim]), ih (arr.drop lim) ([] ++ [arr.take lim])]
      simp
    · simp

/-- The loop of `chunk` stops because its condition fails, not because the bound on
the iterations is reached. -/
theorem chunkLoop_rest_lt (fuel : Nat) (arr : List String) (chunks : List (List String))
    (h : arr.length ≤ fuel) : (chunkLoop fuel arr chunks).1.length < lim := by
  induction fuel generalizing arr chunks with
  | zero =>
    simp only [chunkLoop, lim]
    omega
  | succ n ih =>
    unfold chunkLoop
    split
    · rename_i hl
      apply ih
      simp only [List.length_drop, lim] at *
      omega
    · rename_i hl
      simpa using hl

/-- What the loop of `chunk` leaves: full batches, then a remainder shorter than
`lim`. -/
theorem chunkLoop_spec (fuel : Nat) (arr : List String) (h : arr.length ≤ fuel) :
    (chunkLoop fuel arr []).2.flatten ++ (chunkLoop fuel arr []).1 = arr ∧
    (∀ c ∈ (chunkLoop fuel arr []).2, c.length = lim) ∧
    (chunkLoop fuel arr []).2.length = arr.length / lim := by
  induction fuel generalizing arr with
  | zero =>
    have h0 : arr = [] := List.length_eq_zero.mp (Nat.le_zero.mp h)
    subst h0
    simp [chunkLoop]
  | succ n ih =>
    unfold chunkLoop
    split
    · rename_i hl
      have hd : (arr.drop lim).length ≤ n := by
        simp only [List.length_drop, lim] at *
        omega
      obtain ⟨h1, h2, h3⟩ := ih (arr.drop lim) hd
      rw [chunkLoop_acc]
      refine ⟨?_, ?_, ?_⟩
      · simp only [List.nil_append, List.flatten_append, List.flatten_cons, List.flatten_nil,
          List.append_nil, List.append_assoc]
        rw [h1]
        exact List.take_append_drop lim arr
      · intro c hc
        simp only [List.nil_append, List.mem_append, List.mem_singleton, List.mem_cons,
          List.not_mem_nil, or_false] at hc
        rcases hc with hc | hc
        · subst hc
          simp only [List.length_take]
          omega
        · exact h2 c hc
      · simp only [List.nil_append, List.length_append, List.length_singleton, h3,
          List.length_drop]
        have hlim : 0 < lim := by decide
        have := Nat.sub_add_cancel hl
        conv_rhs => rw [← this]
        rw [Nat.add_div_right _ hlim]
        omega
    · rename_i hl
      have hlt : arr.length < lim := Nat.lt_of_not_le hl
      simp [Nat.div_eq_of_lt hlt]

/-- The batches of `chunk`, in order, make up the input. -/
theorem chunk_flatten (arr : List String) : (chunk arr).flatten = arr := by
  obtain ⟨h1, -, -⟩ := chunkLoop_spec arr.length arr (Nat.le_refl _)
  unfold chunk
  simp only
  split
  · simpa using h1
  · rename_i h0
    have : (chunkLoop arr.length arr []).1 = [] :=
      List.length_eq_zero.mp (Nat.eq_zero_of_not_pos h0)
    rw [this] at h1
    simpa using h1

/-- Every batch of `chunk` but the last is full. -/
theorem chunk_dropLast_full (arr : List String) :
    ∀ c ∈ (chunk arr).dropLast, c.length = lim := by
  obtain ⟨-, h2, -⟩ := chunkLoop_spec arr.length arr (Nat.le_refl _)
  unfold chunk
  simp only
  split
  · rw [List.dropLast_concat]
    exact h2
  · intro c hc
    exact h2 c (List.mem_of_mem_dropLast hc)

/-- Every batch of `chunk` has between one and `lim` elements. -/
theorem chunk_mem_length (arr : List String) :
    ∀ c ∈ chunk arr, 0 < c.length ∧ c.length ≤ lim := by
  obtain ⟨-, h2, -⟩ := chunkLoop_spec arr.length arr (Nat.le_refl _)
  have h4 := chunkLoop_rest_lt arr.length arr [] (Nat.le_refl _)
  unfold chunk
  simp only
  split
  · rename_i h0
    intro c hc
    rcases List.mem_append.mp hc with hc | hc
    · rw [h2 c hc]
      decide
    · rw [List.mem_singleton.mp hc]
      exact ⟨h0, Nat.le_of_lt h4⟩
  · intro c hc
    rw [h2 c hc]
    decide

/-- The number of batches of `chunk`. -/
theorem chunk_length (arr : List String) : (chunk arr).length = (arr.length + 9) / 10 := by
  obtain ⟨h1, h2, h3⟩ := chunkLoop_spec arr.length arr (Nat.le_refl _)
  have h4 := chunkLoop_rest_lt arr.length arr [] (Nat.le_refl _)
  have hlen := congrArg List.length h1
  have hfl : (chunkLoop arr.length arr []).2.flatten.length
      = lim * (chunkLoop arr.length arr []).2.length := by
    generalize (chunkLoop arr.length arr []).2 = l at h2
    induction l with
    | nil => simp
    | cons a l ih =>
      simp only [List.flatten_cons, List.length_append, List.length_cons]
      rw [ih (fun c hc => h2 c (List.mem_cons_of_mem _ hc)), h2 a (List.mem_cons_self _ _)]
      ring
  rw [List.length_append, hfl] at hlen
  unfold chunk
  simp only [lim] at *
  split
  · rename_i h0
    simp only [List.length_append, List.length_singleton]
    omega
  · rename_i h0
    omega

/-- The rounded-up quotient by ten, in the integers. -/
theorem ceil_div_ten (n : Nat) : ⌈(n : ℚ) / 10⌉₊ = (n + 9) / 10 := by
  apply le_antisymm
  · rw [Nat.ceil_le, div_le_iff₀ (by norm_num)]
    have : n ≤ (n + 9) / 10 * 10 := by omega
    exact_mod_cast this
  · have h : (n : ℚ) / 10 ≤ (⌈(n : ℚ) / 10⌉₊ : ℚ) := Nat.le_ceil _
    rw [div_le_iff₀ (by norm_num)] at h
    have h2 : n ≤ ⌈(n : ℚ) / 10⌉₊ * 10 := by exact_mod_cast h
    omega

/-! ## Batcher: the claims -/

/-- C1: for every list of strings `arr`, the batches of `chunk arr` concatenated in
order give `arr`, every batch has at most 10 elements, and every batch except
possibly the last has exactly 10. -/
theorem chunk_partition (arr : List String) :
    (chunk arr).flatten = arr ∧
    (∀ c ∈ chunk arr, c.length ≤ 10) ∧
    (∀ c ∈ (chunk arr).dropLast, c.length = 10) :=
  ⟨chunk_flatten arr, fun c hc => (chunk_mem_length arr c hc).2, chunk_dropLast_full arr⟩

/-- C2: for every list of strings `arr` of length `L`, `chunk arr` has exactly
`ceil(L/10)` batches, none of them empty, and no batch at all when `L = 0`. -/
theorem chunk_count (arr : List String) :
    (chunk arr).length = ⌈(arr.length : ℚ) / 10⌉₊ ∧
    (∀ c ∈ chunk arr, c ≠ []) ∧
    (arr.length = 0 → chunk arr = []) := by
  refine ⟨?_, ?_, ?_⟩
  · rw [ceil_div_ten, chunk_length]
  · intro c hc hnil
    have := (chunk_mem_length arr c hc).1
    rw [hnil] at this
    exact Nat.lt_irrefl _ this
  · intro h0
    apply List.length_eq_zero.mp
    rw [chunk_length, h0]

/-! ## Go maps: lemmas -/

theorem mapGet_isNone_iff {α : Type} (m : List (String × α)) (k : String) :
    (mapGet m k).isNone = true ↔ k ∉ mapKeys m := by
  induction m with
  | nil => simp [mapGet, mapKeys]
  | cons p m ih =>
    obtain ⟨k', v⟩ := p
    unfold mapGet
    by_cases h : k' = k
    · simp [h, mapKeys]
    · simp only [h, if_false, ih, mapKeys, List.map_cons, List.mem_cons, not_or]
      constructor
      · intro hm
        exact ⟨fun hk => h hk.symm, hm⟩
      · intro hm
        exact hm.2

theorem mapSet_of_not_mem {α : Type} (m : List (String × α)) (k : String) (v : α)
    (h : k ∉ mapKeys m) : mapSet m k v = m ++ [(k, v)] := by
  induction m with
  | nil => simp [mapSet]
  | cons p m ih =>
    obtain ⟨k', v'⟩ := p
    simp only [mapKeys, List.map_cons, List.mem_cons, not_or] at h
    have hne : ¬ k' = k := fun hk => h.1 hk.symm
    unfold mapSet
    simp only [hne, if_false, List.cons_append, List.cons.injEq, true_and]
    exact ih h.2

theorem mapGet_mapSet {α : Type} (m : List (String × α)) (k k' : String) (v : α) :
    mapGet (mapSet m k v) k' = if k = k' then some v else mapGet m k' := by
  induction m with
  | nil => simp [mapSet, mapGet]
  | cons p m ih =>
    obtain ⟨k₀, v₀⟩ := p
    unfold mapSet
    by_cases h : k₀ = k
    · subst h
      by_cases h' : k₀ = k' <;> simp [h', mapGet]
    · simp only [h, if_false, mapGet, ih]
      by_cases h' : k₀ = k'
      · subst h'
        have : ¬ k = k₀ := fun hc => h hc.symm
        simp [this]
      · simp [h']

theorem mapKeys_mapSet_of_mem {α : Type} (m : List (String × α)) (k : String) (v : α)
    (h : k ∈ mapKeys m) : mapKeys (mapSet m k v) = mapKeys m := by
  induction m with
  | nil => simp [mapKeys] at h
  | cons p m ih =>
    obtain ⟨k₀, v₀⟩ := p
    unfold mapSet
    by_cases h0 : k₀ = k
    · subst h0
      simp [mapKeys]
    · simp only [h0, if_false]
      have hm : k ∈ mapKeys m := by
        simp only [mapKeys, List.map_cons, List.mem_cons] at h
        rcases h with h | h
        · exact absurd h.symm h0
        · exact h
      have := ih hm
      simp only [mapKeys, List.map_cons] at this ⊢
      rw [this]

theorem mapKeys_mapSet_mem {α : Type} (m : List (String × α)) (k k' : String) (v : α) :
    k' ∈ mapKeys (mapSet m k v) ↔ k' = k ∨ k' ∈ mapKeys m := by
  by_cases h : k ∈ mapKeys m
  · rw [mapKeys_mapSet_of_mem m k v h]
    constructor
    · exact Or.inr
    · rintro (rfl | h')
      · exact h
      · exact h'
  · rw [mapSet_of_not_mem m k v h]
    simp only [mapKeys, List.map_append, List.map_cons, List.map_nil, List.mem_append,
      List.mem_singleton]
    exact Or.comm

theorem mapKeys_mapSet_nodup {α : Type} (m : List (String × α)) (k : String) (v : α)
    (hm : (mapKeys m).Nodup) : (mapKeys (mapSet m k v)).Nodup := by
  by_cases h : k ∈ mapKeys m
  · rw [mapKeys_mapSet_of_mem m k v h]
    exact hm
  · rw [mapSet_of_not_mem m k v h]
    simp only [mapKeys, List.map_append, List.map_cons, List.map_nil]
    refine List.Nodup.append hm (List.nodup_singleton _) ?_
    intro a ha hb
    rw [List.mem_singleton] at hb
    subst hb
    exact h ha

theorem mem_iff_mapGet {α : Type} (m : List (String × α)) (k : String) (v : α)
    (hm : (mapKeys m).Nodup) : (k, v) ∈ m ↔ mapGet m k = some v := by
  induction m with
  | nil => simp [mapGet]
  | cons p m ih =>
    obtain ⟨k₀, v₀⟩ := p
    simp only [mapKeys, List.map_cons, List.nodup_cons] at hm
    unfold mapGet
    by_cases h0 : k₀ = k
    · subst h0
      simp only [List.mem_cons, Prod.mk.injEq, true_and, if_true, Option.some.injEq]
      constructor
      · rintro (h | h)
        · exact h.symm
        · exact absurd (List.mem_map_of_mem Prod.fst h) hm.1
      · intro h
        exact Or.inl h.symm
    · simp only [List.mem_cons, Prod.mk.injEq, h0, if_false]
      rw [← ih hm.2]
      constructor
      · rintro (h | h)
        · exact absurd h.1.symm h0
        · exact h
      · exact Or.inr

/-! ## The map of the status counts: lemmas -/

theorem countsAfter_nodup (deps : List Deployment) (m : List (String × Int))
    (hm : (mapKeys m).Nodup) : (mapKeys (countsAfter deps m)).Nodup := by
  induction deps generalizing m with
  | nil => exact hm
  | cons d rest ih => exact ih _ (mapKeys_mapSet_nodup m _ _ hm)

theorem countsAfter_keys (deps : List Deployment) (m : List (String × Int)) (k : String) :
    k ∈ mapKeys (countsAfter deps m) ↔ k ∈ mapKeys m ∨ k ∈ deps.map (fun d => d.Status) := by
  induction deps generalizing m with
  | nil => simp [countsAfter]
  | cons d rest ih =>
    simp only [countsAfter, ih, mapKeys_mapSet_mem, List.map_cons, List.mem_cons]
    constructor
    · rintro ((h | h) | h)
      · exact Or.inr (Or.inl h)
      · exact Or.inl h
      · exact Or.inr (Or.inr h)
    · rintro (h | h | h)
      · exact Or.inl (Or.inr h)
      · exact Or.inl (Or.inl h)
      · exact Or.inr h

theorem countsAfter_value (deps : List Deployment) (m : List (String × Int)) (k : String) :
    (mapGet (countsAfter deps m) k).getD 0
      = (mapGet m k).getD 0 + ((deps.map (fun d => d.Status)).count k : Int) := by
  induction deps generalizing m with
  | nil => simp [countsAfter]
  | cons d rest ih =>
    simp only [countsAfter, ih, mapGet_mapSet, List.map_cons, List.count_cons]
    by_cases h : d.Status = k
    · subst h
      simp only [if_true, Option.getD_some, beq_self_eq_true, Nat.cast_add, Nat.cast_one]
      ring
    · have hb : (d.Status == k) = false := by simpa using h
      simp [h, hb]

/-- The map `counts` of `scrape` holds, for each distinct status, the number of
deployments with that status. -/
theorem countsAfter_perm (deps : List Deployment) :
    (countsAfter deps []).Perm (statusTally deps) := by
  have hk : (mapKeys (countsAfter deps [])).Nodup := countsAfter_nodup deps [] (by simp [mapKeys])
  have hn1 : (countsAfter deps []).Nodup := List.Nodup.of_map Prod.fst hk
  have hn2 : (statusTally deps).Nodup := by
    unfold statusTally
    refine List.Nodup.map ?_ (List.nodup_dedup _)
    intro a b hab
    exact (Prod.mk.inj hab).1
  rw [List.perm_ext_iff_of_nodup hn1 hn2]
  rintro ⟨k, v⟩
  rw [mem_iff_mapGet _ _ _ hk]
  have hv := countsAfter_value deps [] k
  have hkeys := countsAfter_keys deps [] k
  simp only [mapGet, Option.getD_none, zero_add] at hv
  have hkeys' : k ∈ mapKeys (countsAfter deps []) ↔ k ∈ deps.map (fun d => d.Status) := by
    rw [hkeys]
    simp [mapKeys]
  have htally : (k, v) ∈ statusTally deps
      ↔ k ∈ deps.map (fun d => d.Status) ∧ v = ((deps.map (fun d => d.Status)).count k : Int) := by
    unfold statusTally statusCount
    constructor
    · intro h
      obtain ⟨a, ha, heq⟩ := List.mem_map.mp h
      obtain ⟨h1, h2⟩ := Prod.mk.inj heq
      subst h1
      exact ⟨List.mem_dedup.mp ha, h2.symm⟩
    · rintro ⟨h1, h2⟩
      exact List.mem_map.mpr ⟨k, List.mem_dedup.mpr h1, by rw [h2]⟩
  rw [htally]
  constructor
  · intro h
    refine ⟨?_, ?_⟩
    · rw [← hkeys']
      have hnn : ¬ (mapGet (countsAfter deps []) k).isNone = true := by simp [h]
      rw [mapGet_isNone_iff] at hnn
      exact not_not.mp hnn
    · rw [h] at hv
      simpa using hv
  · rintro ⟨hk', hcount⟩
    have hin : k ∈ mapKeys (countsAfter deps []) := hkeys'.mpr hk'
    cases hg : mapGet (countsAfter deps []) k with
    | none =>
      have : (mapGet (countsAfter deps []) k).isNone = true := by simp [hg]
      rw [mapGet_isNone_iff] at this
      exact absurd hin this
    | some v' =>
      rw [hg] at hv
      simp only [Option.getD_some] at hv
      rw [hv, hcount]

/-! ## Metric emitter: lemmas -/

section EmitterLemmas

variable {F : Type}

theorem namespaced (name : String) : ".".intercalate [DefaultNamespace, name] = "aws.ecs." ++ name := by
  simp only [String.intercalate, String.intercalate.go]
  rfl

/-- The state after a `gauge` call made with rate 1. -/
theorem gauge_fst (env : Env F) (s : Scraper F) (name : String) (value : F) (tags : List String) :
    (Scraper.gauge env s name value tags (env.float64 1)).1
      = ⟨s.Cluster, s.services, s.events, s.calls ++ [gaugeCall env s.Cluster name value tags]⟩ := by
  simp only [Scraper.gauge, gaugeCall, namespaced]

end EmitterLemmas

/-! ## One service: lemmas -/

section ServiceLemmas

variable {F : Type}

/-- The deployments loop sends the three gauges of each deployment and counts the
statuses. -/
theorem scrapeDeployments_eq (env : Env F) (service : Service) (deps : List Deployment)
    (s : Scraper F) (counts : List (String × Int)) :
    Scraper.scrapeDeployments env (serviceTags service) deps s counts
      = (⟨s.Cluster, s.services, s.events,
          s.calls ++ deps.flatMap (deploymentGauges env s.Cluster service)⟩,
         countsAfter deps counts) := by
  induction deps generalizing s counts with
  | nil => simp [Scraper.scrapeDeployments, countsAfter]
  | cons d rest ih =>
    simp only [Scraper.scrapeDeployments, gauge_fst, ih, countsAfter, List.flatMap_cons,
      deploymentGauges, deploymentTags, List.append_assoc, List.cons_append, List.nil_append]

/-- The loop over the entries of `counts` sends one status gauge per entry. -/
theorem scrapeCounts_eq (env : Env F) (service : Service) (entries : List (String × Int))
    (s : Scraper F) :
    Scraper.scrapeCounts env (serviceTags service) entries s
      = ⟨s.Cluster, s.services, s.events,
          s.calls ++ entries.map (statusGauge env s.Cluster service)⟩ := by
  induction entries generalizing s with
  | nil => simp [Scraper.scrapeCounts]
  | cons e rest ih =>
    obtain ⟨status, count⟩ := e
    simp only [Scraper.scrapeCounts, gauge_fst, ih, List.map_cons, statusGauge,
      List.append_assoc, List.cons_append, List.nil_append]

/-- The events loop sends the records not seen yet and marks them seen. -/
theorem scrapeEvents_eq (env : Env F) (service : Service) (evs : List ServiceEvent)
    (s : Scraper F) :
    Scraper.scrapeEvents env service (serviceTags service) evs s
      = ⟨s.Cluster, s.services,
          s.events ++ (newEvents (mapKeys s.events) evs).map (fun ev => (ev.Id, true)),
          s.calls ++ (newEvents (mapKeys s.events) evs).map (eventCall service)⟩ := by
  induction evs generalizing s with
  | nil => simp [Scraper.scrapeEvents, newEvents]
  | cons ev rest ih =>
    unfold Scraper.scrapeEvents newEvents
    by_cases h : ev.Id ∈ mapKeys s.events
    · have hn : ¬ (mapGet s.events ev.Id).isNone = true := by
        rw [mapGet_isNone_iff]
        exact fun hc => hc h
      simp only [hn, h, if_true, if_false]
      exact ih s
    · have hn : (mapGet s.events ev.Id).isNone = true := (mapGet_isNone_iff _ _).mpr h
      simp only [hn, h, if_true, if_false]
      rw [ih]
      simp only [Scraper.sendEvent, mapSet_of_not_mem _ _ _ h, mapKeys, List.map_append,
        List.map_cons, List.map_nil, List.append_assoc, List.cons_append, List.nil_append,
        eventCall]

/-- One pass of `scrape`: the calls added, the identifiers marked, no error. -/
theorem scrape_eq (env : Env F) (s : Scraper F) (service : Service) :
    Scraper.scrape env s service
      = (⟨s.Cluster, s.services,
          s.events ++ (newEvents (mapKeys s.events) service.Events).map (fun ev => (ev.Id, true)),
          s.calls ++ serviceCalls env s.Cluster s.calls (mapKeys s.events) service⟩, none) := by
  unfold Scraper.scrape
  simp only [gauge_fst]
  have ht : ["service_name:" ++ service.ServiceName, "service_status:" ++ service.Status]
      = serviceTags service := rfl
  simp only [ht, scrapeDeployments_eq, scrapeCounts_eq, scrapeEvents_eq, gauge_fst,
    serviceCalls, serviceGauges, deploymentsGauge, List.append_assoc, List.cons_append,
    List.nil_append]

end ServiceLemmas

/-! ## Event records to report: lemmas -/

theorem newEvents_append (seen : List String) (a b : List ServiceEvent) :
    newEvents seen (a ++ b)
      = newEvents seen a
        ++ newEvents (seen ++ (newEvents seen a).map (fun ev => ev.Id)) b := by
  induction a generalizing seen with
  | nil => simp [newEvents]
  | cons ev rest ih =>
    simp only [List.cons_append, newEvents]
    by_cases h : ev.Id ∈ seen
    · simp only [h, if_true]
      exact ih seen
    · simp only [h, if_false, List.map_cons, List.cons_append, List.append_eq, ih,
        List.append_assoc, List.nil_append]

theorem newEvents_mem (seen : List String) (evs : List ServiceEvent) :
    ∀ ev ∈ newEvents seen evs, ev ∈ evs ∧ ev.Id ∉ seen := by
  induction evs generalizing seen with
  | nil => simp [newEvents]
  | cons e rest ih =>
    intro ev hev
    unfold newEvents at hev
    by_cases h : e.Id ∈ seen
    · simp only [h, if_true] at hev
      exact ⟨List.mem_cons_of_mem _ (ih seen ev hev).1, (ih seen ev hev).2⟩
    · simp only [h, if_false, List.mem_cons] at hev
      rcases hev with hev | hev
      · subst hev
        exact ⟨List.mem_cons_self _ _, h⟩
      · have := ih _ ev hev
        exact ⟨List.mem_cons_of_mem _ this.1, fun hc => this.2 (List.mem_append_left _ hc)⟩

theorem newEvents_nodup (seen : List String) (evs : List ServiceEvent) :
    ((newEvents seen evs).map (fun ev => ev.Id)).Nodup := by
  induction evs generalizing seen with
  | nil => simp [newEvents]
  | cons e rest ih =>
    unfold newEvents
    by_cases h : e.Id ∈ seen
    · simp only [h, if_true]
      exact ih seen
    · simp only [h, if_false, List.map_cons, List.nodup_cons]
      refine ⟨?_, ih _⟩
      intro hc
      obtain ⟨ev, hev, hid⟩ := List.mem_map.mp hc
      have := (newEvents_mem _ _ ev hev).2
      apply this
      rw [hid]
      simp

theorem newEvents_covers (seen : List String) (evs : List ServiceEvent) :
    ∀ ev ∈ evs, ev.Id ∈ seen ++ (newEvents seen evs).map (fun ev => ev.Id) := by
  induction evs generalizing seen with
  | nil => simp
  | cons e rest ih =>
    intro ev hev
    unfold newEvents
    by_cases h : e.Id ∈ seen
    · simp only [h, if_true]
      rcases List.mem_cons.mp hev with hev | hev
      · subst hev
        exact List.mem_append_left _ h
      · exact ih seen ev hev
    · simp only [h, if_false, List.map_cons]
      rcases List.mem_cons.mp hev with hev | hev
      · subst hev
        simp
      · have := ih (seen ++ [e.Id]) ev hev
        simpa [List.append_assoc] using this

theorem newEvents_eq_nil (seen : List String) (evs : List ServiceEvent)
    (h : ∀ ev ∈ evs, ev.Id ∈ seen) : newEvents seen evs = [] := by
  induction evs with
  | nil => simp [newEvents]
  | cons e rest ih =>
    unfold newEvents
    simp only [h e (List.mem_cons_self _ _), if_true]
    exact ih (fun ev hev => h ev (List.mem_cons_of_mem _ hev))

/-! ## Projections of the calls: lemmas -/

section ProjectionLemmas

variable {F : Type}

theorem filterMap_const_none {α β : Type} (l : List α) :
    l.filterMap (fun _ => (none : Option β)) = [] := by
  induction l with
  | nil => rfl
  | cons a l ih => simp [List.filterMap_cons]

theorem flatMap_const_nil {α β : Type} (l : List α) :
    l.flatMap (fun _ => ([] : List β)) = [] := by
  induction l with
  | nil => rfl
  | cons a l ih => simp [List.flatMap_cons]

theorem filterMap_some_comp {α β : Type} (f : α → β) (l : List α) :
    l.filterMap (fun a => some (f a)) = l.map f := by
  induction l with
  | nil => rfl
  | cons a l ih => simp [List.filterMap_cons, ih]

theorem eventIds_append (a b : List (Call F)) : eventIds (a ++ b) = eventIds a ++ eventIds b := by
  simp [eventIds, List.filterMap_append]

theorem gaugeCalls_append (a b : List (Call F)) :
    gaugeCalls (a ++ b) = gaugeCalls a ++ gaugeCalls b := by
  simp [gaugeCalls, List.filterMap_append]

theorem describeCalls_append (a b : List (Call F)) :
    describeCalls (a ++ b) = describeCalls a ++ describeCalls b := by
  simp [describeCalls, List.filterMap_append]

theorem eventIds_serviceCalls (env : Env F) (cluster : String) (calls : List (Call F))
    (seen : List String) (service : Service) :
    eventIds (serviceCalls env cluster calls seen service)
      = (newEvents seen service.Events).map (fun ev => ev.Id) := by
  simp only [serviceCalls, eventIds, List.filterMap_append, List.filterMap_map]
  simp [serviceGauges, deploymentsGauge, gaugeCall, deploymentGauges, statusGauge, eventCall,
    List.filterMap_flatMap, Function.comp_def, filterMap_const_none, flatMap_const_nil,
    filterMap_some_comp]

theorem gaugeCalls_events (service : Service) (evs : List ServiceEvent) :
    gaugeCalls (evs.map (eventCall (F := F) service)) = [] := by
  simp [gaugeCalls, List.filterMap_map, eventCall, Function.comp_def, filterMap_const_none]

theorem describeCalls_serviceCalls (env : Env F) (cluster : String) (calls : List (Call F))
    (seen : List String) (service : Service) :
    describeCalls (serviceCalls env cluster calls seen service) = [] := by
  simp only [serviceCalls, describeCalls, List.filterMap_append, List.filterMap_map]
  simp [serviceGauges, deploymentsGauge, gaugeCall, deploymentGauges, statusGauge, eventCall,
    List.filterMap_flatMap, Function.comp_def, filterMap_const_none, flatMap_const_nil]

/-- The gauges of one service do not depend on the calls made before nor on the
seen-set, up to the order of the status gauges. -/
theorem gaugeCalls_serviceCalls_perm (env : Env F) (cluster : String)
    (calls calls' : List (Call F)) (seen seen' : List String) (service : Service) :
    (gaugeCalls (serviceCalls env cluster calls seen service)).Perm
      (gaugeCalls (serviceCalls env cluster calls' seen' service)) := by
  simp only [serviceCalls, gaugeCalls_append, gaugeCalls_events, List.append_nil]
  apply List.Perm.append_left
  have h1 := env.rangeOrder_perm
    (calls ++ (serviceGauges env cluster service
      ++ service.Deployments.flatMap (deploymentGauges env cluster service)
      ++ [deploymentsGauge env cluster service])) (countsAfter service.Deployments [])
  have h2 := env.rangeOrder_perm
    (calls' ++ (serviceGauges env cluster service
      ++ service.Deployments.flatMap (deploymentGauges env cluster service)
      ++ [deploymentsGauge env cluster service])) (countsAfter service.Deployments [])
  have h := h1.trans h2.symm
  unfold gaugeCalls
  exact (h.map _).filterMap _

theorem eventIds_servicesCalls (env : Env F) (cluster : String) (calls : List (Call F))
    (seen : List String) (services : List Service) :
    eventIds (servicesCalls env cluster calls seen services)
      = (newEvents seen (services.flatMap (fun service => service.Events))).map (fun ev => ev.Id) := by
  induction services generalizing calls seen with
  | nil => simp [servicesCalls, newEvents, eventIds]
  | cons service rest ih =>
    simp only [servicesCalls, eventIds_append, eventIds_serviceCalls, ih, List.flatMap_cons,
      newEvents_append, List.map_append]

theorem describeCalls_servicesCalls (env : Env F) (cluster : String) (calls : List (Call F))
    (seen : List String) (services : List Service) :
    describeCalls (servicesCalls env cluster calls seen services) = [] := by
  induction services generalizing calls seen with
  | nil => simp [servicesCalls, describeCalls]
  | cons service rest ih =>
    simp only [servicesCalls, describeCalls_append, describeCalls_serviceCalls, ih,
      List.append_nil]

theorem gaugeCalls_servicesCalls_perm (env : Env F) (cluster : String)
    (calls calls' : List (Call F)) (seen seen' : List String) (services : List Service) :
    (gaugeCalls (servicesCalls env cluster calls seen services)).Perm
      (gaugeCalls (servicesCalls env cluster calls' seen' services)) := by
  induction services generalizing calls calls' seen seen' with
  | nil => simp [servicesCalls]
  | cons service rest ih =>
    simp only [servicesCalls, gaugeCalls_append]
    exact (gaugeCalls_serviceCalls_perm env cluster calls calls' seen seen' service).append
      (ih _ _ _ _)

end ProjectionLemmas

/-! ## The services of one answer: lemmas -/

section ServicesLemmas

variable {F : Type}

theorem mapKeys_append {α : Type} (a b : List (String × α)) :
    mapKeys (a ++ b) = mapKeys a ++ mapKeys b := by
  simp [mapKeys]

theorem mapKeys_marked (evs : List ServiceEvent) :
    mapKeys (evs.map (fun ev => (ev.Id, true))) = evs.map (fun ev => ev.Id) := by
  simp [mapKeys, Function.comp_def]

/-- The loop over the resolved services of one answer: the calls added, the
identifiers marked, no error. -/
theorem scrapeServices_eq (env : Env F) (services : List Service) (s : Scraper F) :
    Scraper.scrapeServices env services s
      = (⟨s.Cluster, s.services,
          s.events ++ (newEvents (mapKeys s.events)
            (services.flatMap (fun service => service.Events))).map (fun ev => (ev.Id, true)),
          s.calls ++ servicesCalls env s.Cluster s.calls (mapKeys s.events) services⟩, none) := by
  induction services generalizing s with
  | nil => simp [Scraper.scrapeServices, servicesCalls, newEvents]
  | cons service rest ih =>
    unfold Scraper.scrapeServices
    rw [scrape_eq]
    simp only [ih, servicesCalls, List.flatMap_cons, newEvents_append, mapKeys_append,
      mapKeys_marked, List.map_append, List.append_assoc]

end ServicesLemmas

/-! ## The cycle: lemmas -/

section CycleLemmas

variable {F : Type}

/-- A batch whose status query fails ends the loop, after the query. -/
theorem scrapeChunks_cons_error (env : Env F) (b : List String) (rest : List (List String))
    (s : Scraper F) (e : String)
    (h : env.describeServices s.calls s.Cluster b = Except.error e) :
    Scraper.scrapeChunks env (b :: rest) s
      = (⟨s.Cluster, s.services, s.events, s.calls ++ [Call.describeServices s.Cluster b]⟩,
         some e) := by
  unfold Scraper.scrapeChunks
  simp only [h]

/-- A batch whose status query succeeds is scraped, and the loop goes on. -/
theorem scrapeChunks_cons_ok (env : Env F) (b : List String) (rest : List (List String))
    (s : Scraper F) (resp : DescribeServicesOutput)
    (h : env.describeServices s.calls s.Cluster b = Except.ok resp) :
    Scraper.scrapeChunks env (b :: rest) s
      = Scraper.scrapeChunks env rest
          ⟨s.Cluster, s.services,
            s.events ++ (newEvents (mapKeys s.events)
              (resp.Services.flatMap (fun service => service.Events))).map (fun ev => (ev.Id, true)),
            s.calls ++ (Call.describeServices s.Cluster b ::
              servicesCalls env s.Cluster (s.calls ++ [Call.describeServices s.Cluster b])
                (mapKeys s.events) resp.Services)⟩ := by
  conv_lhs => unfold Scraper.scrapeChunks
  simp only [h, scrapeServices_eq, List.append_assoc, List.cons_append, List.nil_append]

/-- The cycle: the inventory-size gauge, then the loop over the batches. -/
theorem Scrape_eq (env : Env F) (s : Scraper F) :
    Scraper.Scrape env s
      = Scraper.scrapeChunks env (chunk s.services)
          ⟨s.Cluster, s.services, s.events,
            s.calls ++ [gaugeCall env s.Cluster "services" (env.float64 s.services.length) []]⟩ := by
  unfold Scraper.Scrape
  simp only [gauge_fst]

/-- The loop over the batches keeps the cluster and the inventory. -/
theorem scrapeChunks_frame (env : Env F) (bs : List (List String)) (s : Scraper F) :
    (Scraper.scrapeChunks env bs s).1.Cluster = s.Cluster ∧
    (Scraper.scrapeChunks env bs s).1.services = s.services := by
  induction bs generalizing s with
  | nil => simp [Scraper.scrapeChunks]
  | cons b rest ih =>
    cases h : env.describeServices s.calls s.Cluster b with
    | error e => simp [scrapeChunks_cons_error env b rest s e h]
    | ok resp =>
      rw [scrapeChunks_cons_ok env b rest s resp h]
      exact ih _

/-- The loop over the batches `a ++ b` is the loop over `a`, then, unless it failed,
the loop over `b`. -/
theorem scrapeChunks_append (env : Env F) (a b : List (List String)) (s : Scraper F) :
    Scraper.scrapeChunks env (a ++ b) s
      = match Scraper.scrapeChunks env a s with
        | (s', some e) => (s', some e)
        | (s', none) => Scraper.scrapeChunks env b s' := by
  induction a generalizing s with
  | nil => simp [Scraper.scrapeChunks]
  | cons x rest ih =>
    cases h : env.describeServices s.calls s.Cluster x with
    | error e =>
      rw [List.cons_append, scrapeChunks_cons_error env x (rest ++ b) s e h,
        scrapeChunks_cons_error env x rest s e h]
    | ok resp =>
      rw [List.cons_append, scrapeChunks_cons_ok env x (rest ++ b) s resp h,
        scrapeChunks_cons_ok env x rest s resp h]
      exact ih _

/-- An error returned by the loop over the batches is the error of a status query. -/
theorem scrapeChunks_error (env : Env F) (bs : List (List String)) (s : Scraper F) (e : String)
    (h : (Scraper.scrapeChunks env bs s).2 = some e) :
    ∃ b ∈ bs, ∃ calls : List (Call F), env.describeServices calls s.Cluster b = Except.error e := by
  induction bs generalizing s with
  | nil => simp [Scraper.scrapeChunks] at h
  | cons b rest ih =>
    cases hd : env.describeServices s.calls s.Cluster b with
    | error e' =>
      rw [scrapeChunks_cons_error env b rest s e' hd] at h
      simp only [Option.some.injEq] at h
      subst h
      exact ⟨b, List.mem_cons_self _ _, s.calls, hd⟩
    | ok resp =>
      rw [scrapeChunks_cons_ok env b rest s resp hd] at h
      obtain ⟨b', hb', calls, hc⟩ := ih _ h
      exact ⟨b', List.mem_cons_of_mem _ hb', calls, hc⟩

/-- When every status query succeeds, the loop over the batches makes exactly one
query per batch, in order, and returns no error. -/
theorem scrapeChunks_ok (env : Env F)
    (hok : ∀ calls cluster ids, ∃ out, env.describeServices calls cluster ids = Except.ok out)
    (bs : List (List String)) (s : Scraper F) :
    ∃ d : List (Call F),
      (Scraper.scrapeChunks env bs s).1.calls = s.calls ++ d ∧
      describeCalls d = bs.map (fun b => (s.Cluster, b)) ∧
      (bs = [] → d = []) ∧
      (Scraper.scrapeChunks env bs s).2 = none := by
  induction bs generalizing s with
  | nil => exact ⟨[], by simp [Scraper.scrapeChunks], by simp [describeCalls], fun _ => rfl, rfl⟩
  | cons b rest ih =>
    obtain ⟨resp, hd⟩ := hok s.calls s.Cluster b
    rw [scrapeChunks_cons_ok env b rest s resp hd]
    obtain ⟨d, h1, h2, -, h4⟩ := ih
      ⟨s.Cluster, s.services,
        s.events ++ (newEvents (mapKeys s.events)
          (resp.Services.flatMap (fun service => service.Events))).map (fun ev => (ev.Id, true)),
        s.calls ++ (Call.describeServices s.Cluster b ::
          servicesCalls env s.Cluster (s.calls ++ [Call.describeServices s.Cluster b])
            (mapKeys s.events) resp.Services)⟩
    refine ⟨Call.describeServices s.Cluster b ::
      servicesCalls env s.Cluster (s.calls ++ [Call.describeServices s.Cluster b])
        (mapKeys s.events) resp.Services ++ d, ?_, ?_, ?_, h4⟩
    · rw [h1]
      simp only [List.append_assoc, List.cons_append]
    · rw [List.cons_append, ← List.singleton_append, describeCalls_append, describeCalls_append,
        describeCalls_servicesCalls, h2]
      simp [describeCalls]
    · intro hc
      exact absurd hc (List.cons_ne_nil _ _)

/-- When the loop over the batches returns no error, it has made exactly one query
per batch, in order. -/
theorem scrapeChunks_none_describe (env : Env F) (bs : List (List String)) (s : Scraper F)
    (h : (Scraper.scrapeChunks env bs s).2 = none) :
    describeCalls (Scraper.scrapeChunks env bs s).1.calls
      = describeCalls s.calls ++ bs.map (fun b => (s.Cluster, b)) := by
  induction bs generalizing s with
  | nil => simp [Scraper.scrapeChunks]
  | cons b rest ih =>
    cases hd : env.describeServices s.calls s.Cluster b with
    | error e =>
      rw [scrapeChunks_cons_error env b rest s e hd] at h
      simp at h
    | ok resp =>
      rw [scrapeChunks_cons_ok env b rest s resp hd] at h ⊢
      rw [ih _ h, ← List.singleton_append (l := servicesCalls _ _ _ _ _), describeCalls_append,
        describeCalls_append, describeCalls_servicesCalls]
      simp [describeCalls]

/-- The calls of the services of one answer do not depend on the answers of the
metrics sink. -/
theorem servicesCalls_sink (env : Env F) (g : List (Call F) → GaugeCall F → Option String)
    (ev : List (Call F) → StatsdEvent → Option String) (cluster : String)
    (calls : List (Call F)) (seen : List String) (services : List Service) :
    servicesCalls { env with statsdGauge := g, statsdEvent := ev } cluster calls seen services
      = servicesCalls env cluster calls seen services := by
  induction services generalizing calls seen with
  | nil => rfl
  | cons service rest ih =>
    simp only [servicesCalls]
    rw [ih]
    rfl

/-- The loop over the batches does not depend on the answers of the metrics sink. -/
theorem scrapeChunks_sink (env : Env F) (g : List (Call F) → GaugeCall F → Option String)
    (ev : List (Call F) → StatsdEvent → Option String) (bs : List (List String))
    (s : Scraper F) :
    Scraper.scrapeChunks { env with statsdGauge := g, statsdEvent := ev } bs s
      = Scraper.scrapeChunks env bs s := by
  induction bs generalizing s with
  | nil => rfl
  | cons b rest ih =>
    cases hd : env.describeServices s.calls s.Cluster b with
    | error e =>
      rw [scrapeChunks_cons_error env b rest s e hd,
        scrapeChunks_cons_error { env with statsdGauge := g, statsdEvent := ev } b rest s e hd]
    | ok resp =>
      rw [scrapeChunks_cons_ok env b rest s resp hd,
        scrapeChunks_cons_ok { env with statsdGauge := g, statsdEvent := ev } b rest s resp hd,
        ih, servicesCalls_sink]

end CycleLemmas

/-! ## Event deduplication: lemmas -/

section DedupLemmas

variable {F : Type}

theorem continues_refl (s : Scraper F) : Continues s s :=
  ⟨rfl, [], by simp, by simp [eventIds], by simp [eventIds], by simp [eventIds]⟩

theorem continues_trans {s r t : Scraper F} (h1 : Continues s r) (h2 : Continues r t) :
    Continues s t := by
  obtain ⟨hc1, d1, hd1, hk1, hn1, hs1⟩ := h1
  obtain ⟨hc2, d2, hd2, hk2, hn2, hs2⟩ := h2
  refine ⟨hc2.trans hc1, d1 ++ d2, ?_, ?_, ?_, ?_⟩
  · rw [hd2, hd1, List.append_assoc]
  · rw [hk2, hk1, eventIds_append, List.append_assoc]
  · rw [eventIds_append]
    refine List.Nodup.append hn1 hn2 ?_
    intro id hi1 hi2
    apply hs2 id hi2
    rw [hk1]
    exact List.mem_append_right _ hi1
  · intro id hid
    rw [eventIds_append] at hid
    rcases List.mem_append.mp hid with hid | hid
    · exact hs1 id hid
    · intro hc
      apply hs2 id hid
      rw [hk1]
      exact List.mem_append_left _ hc

/-- Calls that report no event record, with the seen-set kept, continue a scraper. -/
theorem continues_of_quiet (s : Scraper F) (services : List String) (d : List (Call F))
    (hd : eventIds d = []) :
    Continues s ⟨s.Cluster, services, s.events, s.calls ++ d⟩ :=
  ⟨rfl, d, rfl, by simp [hd], by simp [hd], by simp [hd]⟩

theorem scrapeServices_continues (env : Env F) (services : List Service) (s : Scraper F) :
    Continues s (Scraper.scrapeServices env services s).1 := by
  rw [scrapeServices_eq]
  refine ⟨rfl, _, rfl, ?_, ?_, ?_⟩
  · simp only [mapKeys_append, mapKeys_marked, eventIds_servicesCalls]
  · rw [eventIds_servicesCalls]
    exact newEvents_nodup _ _
  · intro id hid
    rw [eventIds_servicesCalls] at hid
    obtain ⟨ev, hev, rfl⟩ := List.mem_map.mp hid
    exact (newEvents_mem _ _ ev hev).2

theorem scrapeChunks_continues (env : Env F) (bs : List (List String)) (s : Scraper F) :
    Continues s (Scraper.scrapeChunks env bs s).1 := by
  induction bs generalizing s with
  | nil => exact continues_refl s
  | cons b rest ih =>
    cases hd : env.describeServices s.calls s.Cluster b with
    | error e =>
      rw [scrapeChunks_cons_error env b rest s e hd]
      exact continues_of_quiet s s.services _ (by simp [eventIds])
    | ok resp =>
      rw [scrapeChunks_cons_ok env b rest s resp hd]
      refine continues_trans ?_ (ih _)
      have h1 : Continues s ⟨s.Cluster, s.services, s.events,
          s.calls ++ [Call.describeServices s.Cluster b]⟩ :=
        continues_of_quiet s s.services _ (by simp [eventIds])
      have h2 := scrapeServices_continues env resp.Services
        ⟨s.Cluster, s.services, s.events, s.calls ++ [Call.describeServices s.Cluster b]⟩
      rw [scrapeServices_eq] at h2
      have h3 := continues_trans h1 h2
      simpa only [List.append_assoc, List.cons_append, List.nil_append] using h3

theorem Scrape_continues (env : Env F) (s : Scraper F) :
    Continues s (Scraper.Scrape env s).1 := by
  rw [Scrape_eq]
  exact continues_trans (continues_of_quiet s s.services _ (by simp [eventIds, gaugeCall]))
    (scrapeChunks_continues env _ _)

theorem updateServices_continues (env : Env F) (s : Scraper F) :
    Continues s (Scraper.updateServices env s).1 := by
  simp only [Scraper.updateServices, Scraper.fetchServices]
  exact continues_of_quiet s _ _ (by simp [eventIds])

theorem ticks_continues (env : Env F) (n : Nat) (s : Scraper F) :
    Continues s (Scraper.ticks env n s).1 := by
  induction n generalizing s with
  | zero => exact continues_refl s
  | succ n ih =>
    unfold Scraper.ticks
    have h := Scrape_continues env s
    split
    · rename_i s' err heq
      rw [heq] at h
      exact h
    · rename_i s' heq
      rw [heq] at h
      exact continues_trans h (ih s')

theorem Start_continues (env : Env F) (n : Nat) (s : Scraper F) :
    Continues s (Scraper.Start env n s).1 := by
  unfold Scraper.Start
  have h := updateServices_continues env s
  split
  · rename_i s' err heq
    rw [heq] at h
    exact h
  · rename_i s' heq
    rw [heq] at h
    exact continues_trans h (ticks_continues env n s')

/-- The deduplication invariant is kept along a continuation. -/
theorem deduplicated_of_continues {s r : Scraper F} (hs : Deduplicated s) (h : Continues s r) :
    Deduplicated r := by
  obtain ⟨-, d, hd, hk, hn, hnew⟩ := h
  obtain ⟨h1, h2⟩ := hs
  refine ⟨?_, ?_⟩
  · rw [hd, eventIds_append]
    refine List.Nodup.append h1 hn ?_
    intro id hi1 hi2
    exact hnew id hi2 (h2 id hi1)
  · intro id hid
    rw [hd, eventIds_append] at hid
    rw [hk]
    rcases List.mem_append.mp hid with hid | hid
    · exact List.mem_append_left _ (h2 id hid)
    · exact List.mem_append_right _ hid

/-- Along a continuation, a record already seen is not reported again. -/
theorem count_of_continues {s r : Scraper F} (h : Continues s r) (id : String)
    (hid : id ∈ mapKeys s.events) :
    (eventIds r.calls).count id = (eventIds s.calls).count id := by
  obtain ⟨-, d, hd, -, -, hnew⟩ := h
  rw [hd, eventIds_append, List.count_append]
  have : (eventIds d).count id = 0 := List.count_eq_zero.mpr (fun hc => hnew id hc hid)
  omega

/-- The loop over the batches when the status queries answer from a fixed snapshot:
the state it ends in, the records it reports and, up to order, the gauges it sends. -/
theorem scrapeChunks_snapshot (env : Env F) (snap : String → List String → DescribeServicesOutput)
    (hsnap : ∀ calls cluster ids, env.describeServices calls cluster ids = Except.ok (snap cluster ids))
    (bs : List (List String)) (s : Scraper F) :
    ∃ d : List (Call F),
      Scraper.scrapeChunks env bs s
        = (⟨s.Cluster, s.services,
            s.events ++ (newEvents (mapKeys s.events)
              ((bs.flatMap (fun b => (snap s.Cluster b).Services)).flatMap
                (fun service => service.Events))).map (fun ev => (ev.Id, true)),
            s.calls ++ d⟩, none) ∧
      eventIds d
        = (newEvents (mapKeys s.events)
            ((bs.flatMap (fun b => (snap s.Cluster b).Services)).flatMap
              (fun service => service.Events))).map (fun ev => ev.Id) ∧
      (gaugeCalls d).Perm
        (gaugeCalls (bs.flatMap (fun b => servicesCalls env s.Cluster [] [] (snap s.Cluster b).Services))) := by
  induction bs generalizing s with
  | nil => exact ⟨[], by simp [Scraper.scrapeChunks, newEvents], by simp [eventIds, newEvents],
      by simp [gaugeCalls]⟩
  | cons b rest ih =>
    rw [scrapeChunks_cons_ok env b rest s (snap s.Cluster b) (hsnap _ _ _)]
    obtain ⟨d, h1, h2, h3⟩ := ih
      ⟨s.Cluster, s.services,
        s.events ++ (newEvents (mapKeys s.events)
          ((snap s.Cluster b).Services.flatMap (fun service => service.Events))).map
            (fun ev => (ev.Id, true)),
        s.calls ++ (Call.describeServices s.Cluster b ::
          servicesCalls env s.Cluster (s.calls ++ [Call.describeServices s.Cluster b])
            (mapKeys s.events) (snap s.Cluster b).Services)⟩
    simp only [mapKeys_append, mapKeys_marked] at h1 h2
    refine ⟨Call.describeServices s.Cluster b ::
      servicesCalls env s.Cluster (s.calls ++ [Call.describeServices s.Cluster b])
        (mapKeys s.events) (snap s.Cluster b).Services ++ d, ?_, ?_, ?_⟩
    · rw [h1]
      simp only [List.flatMap_cons, List.flatMap_append, newEvents_append, List.map_append,
        List.append_assoc, List.cons_append]
    · rw [← List.singleton_append, List.append_assoc, eventIds_append, eventIds_append, h2,
        eventIds_servicesCalls]
      simp only [List.flatMap_cons, List.flatMap_append, newEvents_append, List.map_append]
      simp [eventIds]
    · rw [← List.singleton_append, List.append_assoc, gaugeCalls_append, gaugeCalls_append,
        List.flatMap_cons, gaugeCalls_append]
      have h0 : gaugeCalls [Call.describeServices (F := F) s.Cluster b] = [] := by
        simp [gaugeCalls]
      rw [h0, List.nil_append]
      exact (gaugeCalls_servicesCalls_perm env s.Cluster _ _ _ _ _).append h3

/-- One cycle when the status queries answer from a fixed snapshot. -/
theorem Scrape_snapshot (env : Env F) (snap : String → List String → DescribeServicesOutput)
    (hsnap : ∀ calls cluster ids, env.describeServices calls cluster ids = Except.ok (snap cluster ids))
    (s : Scraper F) :
    ∃ d : List (Call F),
      Scraper.Scrape env s
        = (⟨s.Cluster, s.services,
            s.events ++ (newEvents (mapKeys s.events)
              ((resolvedServices snap s.Cluster s.services).flatMap
                (fun service => service.Events))).map (fun ev => (ev.Id, true)),
            s.calls ++ d⟩, none) ∧
      eventIds d
        = (newEvents (mapKeys s.events)
            ((resolvedServices snap s.Cluster s.services).flatMap
              (fun service => service.Events))).map (fun ev => ev.Id) ∧
      (gaugeCalls d).Perm
        ({ name := "aws.ecs.services"
           value := env.float64 s.services.length
           tags := ["cluster_name:" ++ s.Cluster]
           rate := env.float64 1 } ::
          gaugeCalls ((chunk s.services).flatMap
            (fun b => servicesCalls env s.Cluster [] [] (snap s.Cluster b).Services))) := by
  obtain ⟨d, h1, h2, h3⟩ := scrapeChunks_snapshot env snap hsnap (chunk s.services)
    ⟨s.Cluster, s.services, s.events,
      s.calls ++ [gaugeCall env s.Cluster "services" (env.float64 s.services.length) []]⟩
  refine ⟨gaugeCall env s.Cluster "services" (env.float64 s.services.length) [] :: d, ?_, ?_, ?_⟩
  · rw [Scrape_eq, h1]
    simp only [resolvedServices, List.append_assoc, List.cons_append, List.nil_append]
  · rw [← List.singleton_append, eventIds_append, h2]
    simp [eventIds, gaugeCall, resolvedServices]
  · rw [← List.singleton_append, gaugeCalls_append]
    have h0 : gaugeCalls [gaugeCall env s.Cluster "services" (env.float64 s.services.length) []]
        = [{ name := "aws.ecs.services"
             value := env.float64 s.services.length
             tags := ["cluster_name:" ++ s.Cluster]
             rate := env.float64 1 }] := by
      simp [gaugeCalls, gaugeCall]
    rw [h0]
    exact List.Perm.cons _ h3

end DedupLemmas

/-! ## Service inventory: lemmas -/

theorem foldl_append_singleton (p init : List String) :
    p.foldl (fun services arn => services ++ [arn]) init = init ++ p := by
  induction p generalizing init with
  | nil => simp
  | cons a p ih => simp [List.foldl_cons, ih]

theorem foldl_pages (pages : List (List String)) (init : List String) :
    pages.foldl (fun services p => p.foldl (fun services arn => services ++ [arn]) services) init
      = init ++ pages.flatten := by
  induction pages generalizing init with
  | nil => simp
  | cons p pages ih =>
    rw [List.foldl_cons, foldl_append_singleton, ih, List.flatten_cons, List.append_assoc]

/-- The batches of an inventory of 25 identifiers. -/
theorem chunk_sizes_25 (arr : List String) (h : arr.length = 25) :
    (chunk arr).map List.length = [10, 10, 5] := by
  have hl : (chunk arr).length = 3 := by rw [chunk_length, h]
  have hf := congrArg List.length (chunk_flatten arr)
  have hd := chunk_dropLast_full arr
  obtain ⟨a, b, c, habc⟩ := List.length_eq_three.mp hl
  rw [habc] at hf hd
  have ha : a.length = 10 := hd a (by simp [List.dropLast])
  have hb : b.length = 10 := hd b (by simp [List.dropLast])
  simp only [List.flatten_cons, List.flatten_nil, List.append_nil, List.length_append, h] at hf
  rw [habc]
  simp only [List.map_cons, List.map_nil, ha, hb]
  have hc : c.length = 5 := by omega
  rw [hc]

/-! ## The claims on the inventory, the emitter and the cycle -/

section Claims

variable {F : Type}

/-- C3, as the code has it: `updateServices` returns the error of the service listing,
and, whether the listing failed or not, replaces the stored inventory by the
identifiers of the pages the listing delivered; the seen-set and the cluster are
kept. -/
theorem updateServices_overwrites (env : Env F) (s : Scraper F) :
    (Scraper.updateServices env s).2 = (env.listServicesPages s.calls s.Cluster).err ∧
    (Scraper.updateServices env s).1.services
      = (env.listServicesPages s.calls s.Cluster).pages.flatten ∧
    (Scraper.updateServices env s).1.events = s.events ∧
    (Scraper.updateServices env s).1.Cluster = s.Cluster := by
  simp [Scraper.updateServices, Scraper.fetchServices, foldl_pages]

/-- C3 fails as stated: a service listing that fails after one page makes
`updateServices` return the error and replace an inventory of two services by the
page delivered. -/
theorem updateServices_failure_overwrites :
    (Scraper.updateServices listFailsEnv sampleScraper).2
        = some "RequestError: send request failed" ∧
      sampleScraper.services = ["arn:api", "arn:web"] ∧
      (Scraper.updateServices listFailsEnv sampleScraper).1.services = ["arn:web"] ∧
      (Scraper.updateServices listFailsEnv sampleScraper).1.services ≠ sampleScraper.services := by
  decide

/-- C9: for every name, value, tag list and rate, `gauge` sends one gauge named
`aws.ecs.` followed by the name, tagged with the tags given followed by
`cluster_name:<Cluster>`, with the value and the rate given, and returns what the
sink returns; the first call of a cycle is the inventory-size gauge, whose only tag
is the cluster tag. -/
theorem gauge_sends (env : Env F) (s : Scraper F) (name : String) (value : F)
    (tags : List String) (rate : F) :
    (Scraper.gauge env s name value tags rate).1
      = ⟨s.Cluster, s.services, s.events,
          s.calls ++ [Call.gauge
            { name := "aws.ecs." ++ name
              value := value
              tags := tags ++ ["cluster_name:" ++ s.Cluster]
              rate := rate }]⟩ ∧
    (Scraper.gauge env s name value tags rate).2
      = env.statsdGauge s.calls
          { name := "aws.ecs." ++ name
            value := value
            tags := tags ++ ["cluster_name:" ++ s.Cluster]
            rate := rate } ∧
    ∃ rest : List (Call F),
      (Scraper.Scrape env s).1.calls
        = s.calls ++ Call.gauge
            { name := "aws.ecs.services"
              value := env.float64 s.services.length
              tags := ["cluster_name:" ++ s.Cluster]
              rate := env.float64 1 } :: rest := by
  refine ⟨?_, ?_, ?_⟩
  · simp only [Scraper.gauge, namespaced]
  · simp only [Scraper.gauge, namespaced]
  · obtain ⟨-, d, hd, -⟩ := scrapeChunks_continues env (chunk s.services)
      ⟨s.Cluster, s.services, s.events,
        s.calls ++ [gaugeCall env s.Cluster "services" (env.float64 s.services.length) []]⟩
    rw [Scrape_eq, hd]
    exact ⟨d, by simp [gaugeCall]⟩

/-- C10: for every resolved service, the calls of `scrape` are, in order: the gauges
`service.desired/pending/running`, the three gauges of each deployment, the gauge
`service.deployments`, one status gauge per entry of `counts`, and one event per
record not seen yet.  The service gauges, `service.deployments` and the status gauges
carry exactly the tags `service_name`, `service_status`, `cluster_name`; the gauges
of a deployment carry the two service tags, then `deployment` and
`deployment_status` of that deployment, then `cluster_name`; an event carries the two
service tags then `ecs`, the message as title and text, and the service name as
aggregation key. -/
theorem scrape_tags (env : Env F) (s : Scraper F) (service : Service) :
    (Scraper.scrape env s service).1.calls
      = s.calls
        ++ (serviceGauges env s.Cluster service
          ++ service.Deployments.flatMap (deploymentGauges env s.Cluster service)
          ++ [deploymentsGauge env s.Cluster service]
          ++ (env.rangeOrder
                (s.calls ++ (serviceGauges env s.Cluster service
                  ++ service.Deployments.flatMap (deploymentGauges env s.Cluster service)
                  ++ [deploymentsGauge env s.Cluster service]))
                (countsAfter service.Deployments [])).map (statusGauge env s.Cluster service)
          ++ (newEvents (mapKeys s.events) service.Events).map (eventCall service)) ∧
    (∀ c ∈ serviceGauges env s.Cluster service ++ [deploymentsGauge env s.Cluster service],
      ∃ g, c = Call.gauge g ∧
        g.tags = ["service_name:" ++ service.ServiceName, "service_status:" ++ service.Status,
          "cluster_name:" ++ s.Cluster]) ∧
    (∀ entry : String × Int, ∃ g, statusGauge env s.Cluster service entry = Call.gauge g ∧
        g.name = "aws.ecs.service.deployments." ++ env.toLower entry.1 ∧
        g.tags = ["service_name:" ++ service.ServiceName, "service_status:" ++ service.Status,
          "cluster_name:" ++ s.Cluster]) ∧
    (∀ d : Deployment, ∀ c ∈ deploymentGauges env s.Cluster service d,
      ∃ g, c = Call.gauge g ∧
        g.tags = ["service_name:" ++ service.ServiceName, "service_status:" ++ service.Status,
          "deployment:" ++ d.Id, "deployment_status:" ++ d.Status,
          "cluster_name:" ++ s.Cluster]) ∧
    (∀ ev : ServiceEvent,
      eventCall (F := F) service ev
        = Call.event ev.Id
            { Title := ev.Message
              Text := ev.Message
              Timestamp := ev.CreatedAt
              AggregationKey := service.ServiceName
              Tags := ["service_name:" ++ service.ServiceName,
                "service_status:" ++ service.Status, "ecs"] }) := by
  refine ⟨?_, ?_, ?_, ?_, ?_⟩
  · rw [scrape_eq]
    rfl
  · intro c hc
    simp only [serviceGauges, deploymentsGauge, List.cons_append, List.nil_append, List.mem_cons,
      List.mem_singleton, List.not_mem_nil, or_false] at hc
    rcases hc with rfl | rfl | rfl | rfl <;> exact ⟨_, rfl, rfl⟩
  · intro entry
    exact ⟨_, rfl, rfl, rfl⟩
  · intro d c hc
    simp only [deploymentGauges, List.mem_cons, List.mem_singleton, List.not_mem_nil,
      or_false] at hc
    rcases hc with rfl | rfl | rfl <;> exact ⟨_, rfl, rfl⟩
  · intro ev
    rfl

/-- C8: when every status query succeeds, one cycle first sends the inventory-size
gauge `aws.ecs.services` with the number of identifiers of the inventory, then makes
exactly the queries `chunk(inventory)`, in order, and returns no error; an inventory
of 25 identifiers gives three queries, of 10, 10 and 5 identifiers, and an empty
inventory gives the gauge with value 0 and no other call. -/
theorem Scrape_queries (env : Env F) (s : Scraper F)
    (hok : ∀ calls cluster ids, ∃ out, env.describeServices calls cluster ids = Except.ok out) :
    ∃ rest : List (Call F),
      (Scraper.Scrape env s).1.calls
        = s.calls ++ Call.gauge
            { name := "aws.ecs.services"
              value := env.float64 s.services.length
              tags := ["cluster_name:" ++ s.Cluster]
              rate := env.float64 1 } :: rest ∧
      describeCalls rest = (chunk s.services).map (fun b => (s.Cluster, b)) ∧
      (Scraper.Scrape env s).2 = none ∧
      (s.services.length = 25 →
        (describeCalls rest).map (fun q => q.2.length) = [10, 10, 5]) ∧
      (s.services.length = 0 →
        rest = [] ∧ env.float64 s.services.length = env.float64 0) := by
  obtain ⟨d, h1, h2, h3, h4⟩ := scrapeChunks_ok env hok (chunk s.services)
    ⟨s.Cluster, s.services, s.events,
      s.calls ++ [gaugeCall env s.Cluster "services" (env.float64 s.services.length) []]⟩
  refine ⟨d, ?_, h2, ?_, ?_, ?_⟩
  · rw [Scrape_eq, h1]
    simp [gaugeCall]
  · rw [Scrape_eq]
    exact h4
  · intro h25
    rw [h2, List.map_map, ← chunk_sizes_25 _ h25]
    rfl
  · intro h0
    refine ⟨h3 ((chunk_count s.services).2.2 h0), ?_⟩
    rw [h0]
    rfl

/-- C7: when the status query of a batch fails after the batches before it went
through, the cycle stops there: it returns the error of that query, its last call is
that query, no query is made for a later batch, and nothing is sent after the
failure. -/
theorem Scrape_stops_at_failed_query (env : Env F) (s s' : Scraper F)
    (pre post : List (List String)) (b : List String) (e : String)
    (hchunks : chunk s.services = pre ++ b :: post)
    (hpre : Scraper.scrapeChunks env pre
        (Scraper.gauge env s "services" (env.float64 s.services.length) [] (env.float64 1)).1
      = (s', none))
    (hfail : env.describeServices s'.calls s.Cluster b = Except.error e) :
    Scraper.Scrape env s
      = (⟨s.Cluster, s.services, s'.events, s'.calls ++ [Call.describeServices s.Cluster b]⟩,
         some e) ∧
    describeCalls (s'.calls ++ [Call.describeServices s.Cluster b])
      = describeCalls s.calls ++ (pre ++ [b]).map (fun b => (s.Cluster, b)) := by
  have hframe := scrapeChunks_frame env pre
    (Scraper.gauge env s "services" (env.float64 s.services.length) [] (env.float64 1)).1
  have hnone := scrapeChunks_none_describe env pre
    (Scraper.gauge env s "services" (env.float64 s.services.length) [] (env.float64 1)).1
  rw [hpre] at hframe hnone
  simp only [gauge_fst] at hframe
  obtain ⟨hc, hs⟩ := hframe
  refine ⟨?_, ?_⟩
  · unfold Scraper.Scrape
    simp only
    have hsv : (Scraper.gauge env s "services" (env.float64 s.services.length) []
        (env.float64 1)).1.services = s.services := rfl
    rw [hsv, hchunks, scrapeChunks_append, hpre]
    simp only
    rw [← hc] at hfail
    rw [scrapeChunks_cons_error env b post s' e hfail, hc, hs]
  · rw [describeCalls_append, hnone rfl]
    simp [gauge_fst, describeCalls_append, describeCalls, gaugeCall]

/-- C4, as the code has it: the answers of the metrics sink do not change what a
cycle does or returns; `scrape` returns no error; and `Scrape` returns either no
error or the error of a failed status query of one of its batches. -/
theorem Scrape_ignores_sink_errors (env : Env F) (s : Scraper F)
    (g : List (Call F) → GaugeCall F → Option String)
    (ev : List (Call F) → StatsdEvent → Option String) (service : Service) :
    Scraper.Scrape { env with statsdGauge := g, statsdEvent := ev } s = Scraper.Scrape env s ∧
    (Scraper.scrape env s service).2 = none ∧
    ((Scraper.Scrape env s).2 = none ∨
      ∃ e b calls, b ∈ chunk s.services ∧
        env.describeServices calls s.Cluster b = Except.error e ∧
        (Scraper.Scrape env s).2 = some e) := by
  refine ⟨?_, ?_, ?_⟩
  · rw [Scrape_eq, Scrape_eq, scrapeChunks_sink]
    rfl
  · rw [scrape_eq]
  · cases h : (Scraper.Scrape env s).2 with
    | none => exact Or.inl rfl
    | some e =>
      right
      rw [Scrape_eq] at h
      obtain ⟨b, hb, calls, hc⟩ := scrapeChunks_error env _ _ e h
      exact ⟨e, b, calls, hb, hc, rfl⟩

/-- C4 fails as stated: on a sink where every send fails, `gauge` returns the error,
a cycle over the sample inventory sends gauges and an event, and `Scrape` returns no
error. -/
theorem sink_failure_not_fatal :
    (∀ calls g, sinkFailsEnv.statsdGauge calls g = some "write udp: connection refused") ∧
      (Scraper.gauge sinkFailsEnv sampleScraper "services" 2 [] 1).2
        = some "write udp: connection refused" ∧
      (gaugeCalls (Scraper.Scrape sinkFailsEnv sampleScraper).1.calls).length = 16 ∧
      eventIds (Scraper.Scrape sinkFailsEnv sampleScraper).1.calls = ["ev-1"] ∧
      (Scraper.Scrape sinkFailsEnv sampleScraper).2 = none := by
  refine ⟨fun _ _ => rfl, rfl, ?_, ?_, rfl⟩
  · decide
  · decide

/-- C6: for every resolved service, `scrape` sends the gauge
`aws.ecs.service.deployments` with the number of deployments of the service and,
right after it, for each distinct deployment status exactly one gauge
`aws.ecs.service.deployments.<lower-cased status>` with the number of deployments of
that status, in some order; the gauges sent before are the service and deployment
gauges and no gauge is sent after.  Statuses ACTIVE, ACTIVE, PRIMARY give
`service.deployments` = 3, `service.deployments.active` = 2 and
`service.deployments.primary` = 1. -/
theorem scrape_deployment_counts (env : Env F) (s : Scraper F) (service : Service) :
    ∃ pre statusCalls post : List (Call F),
      (Scraper.scrape env s service).1.calls
        = s.calls ++ pre
          ++ Call.gauge
              { name := "aws.ecs.service.deployments"
                value := env.float64 service.Deployments.length
                tags := ["service_name:" ++ service.ServiceName,
                  "service_status:" ++ service.Status, "cluster_name:" ++ s.Cluster]
                rate := env.float64 1 } :: statusCalls
          ++ post ∧
      statusCalls.Perm
        ((service.Deployments.map (fun d => d.Status)).dedup.map (fun status =>
          Call.gauge
            { name := "aws.ecs.service.deployments." ++ env.toLower status
              value := env.float64 ((service.Deployments.map (fun d => d.Status)).count status)
              tags := ["service_name:" ++ service.ServiceName,
                "service_status:" ++ service.Status, "cluster_name:" ++ s.Cluster]
              rate := env.float64 1 })) ∧
      (∀ g ∈ gaugeCalls pre,
        g.name ∈ ["aws.ecs.service.desired", "aws.ecs.service.pending",
          "aws.ecs.service.running", "aws.ecs.service.deployment.desired",
          "aws.ecs.service.deployment.pending", "aws.ecs.service.deployment.running"]) ∧
      gaugeCalls post = [] ∧
      (service.Deployments.map (fun d => d.Status) = ["ACTIVE", "ACTIVE", "PRIMARY"] →
        env.toLower "ACTIVE" = "active" → env.toLower "PRIMARY" = "primary" →
        env.float64 service.Deployments.length = env.float64 3 ∧
        statusCalls.Perm
          [Call.gauge
            { name := "aws.ecs.service.deployments.active"
              value := env.float64 2
              tags := ["service_name:" ++ service.ServiceName,
                "service_status:" ++ service.Status, "cluster_name:" ++ s.Cluster]
              rate := env.float64 1 },
           Call.gauge
            { name := "aws.ecs.service.deployments.primary"
              value := env.float64 1
              tags := ["service_name:" ++ service.ServiceName,
                "service_status:" ++ service.Status, "cluster_name:" ++ s.Cluster]
              rate := env.float64 1 }]) := by
  have hperm : ((env.rangeOrder
      (s.calls ++ (serviceGauges env s.Cluster service
        ++ service.Deployments.flatMap (deploymentGauges env s.Cluster service)
        ++ [deploymentsGauge env s.Cluster service]))
      (countsAfter service.Deployments [])).map (statusGauge env s.Cluster service)).Perm
      ((service.Deployments.map (fun d => d.Status)).dedup.map (fun status =>
          Call.gauge
            { name := "aws.ecs.service.deployments." ++ env.toLower status
              value := env.float64 ((service.Deployments.map (fun d => d.Status)).count status)
              tags := ["service_name:" ++ service.ServiceName,
                "service_status:" ++ service.Status, "cluster_name:" ++ s.Cluster]
              rate := env.float64 1 })) := by
    have h := (((env.rangeOrder_perm
      (s.calls ++ (serviceGauges env s.Cluster service
        ++ service.Deployments.flatMap (deploymentGauges env s.Cluster service)
        ++ [deploymentsGauge env s.Cluster service]))
      (countsAfter service.Deployments [])).trans (countsAfter_perm service.Deployments)).map
        (statusGauge env s.Cluster service))
    simpa only [statusTally, statusCount, List.map_map, Function.comp_def, statusGauge,
      gaugeCall, serviceTags, List.cons_append, List.nil_append] using h
  refine ⟨serviceGauges env s.Cluster service
      ++ service.Deployments.flatMap (deploymentGauges env s.Cluster service),
    (env.rangeOrder
      (s.calls ++ (serviceGauges env s.Cluster service
        ++ service.Deployments.flatMap (deploymentGauges env s.Cluster service)
        ++ [deploymentsGauge env s.Cluster service]))
      (countsAfter service.Deployments [])).map (statusGauge env s.Cluster service),
    (newEvents (mapKeys s.events) service.Events).map (eventCall service), ?_, hperm, ?_, ?_, ?_⟩
  · rw [scrape_eq]
    simp only [serviceCalls, deploymentsGauge, gaugeCall, serviceTags, List.append_assoc,
      List.cons_append, List.nil_append]
    rfl
  · intro g hg
    rw [gaugeCalls_append] at hg
    rcases List.mem_append.mp hg with hg | hg
    · simp only [serviceGauges, gaugeCalls, gaugeCall, List.filterMap_cons, List.filterMap_nil,
        List.mem_cons, List.not_mem_nil, or_false] at hg
      rcases hg with rfl | rfl | rfl <;> simp
    · simp only [gaugeCalls, List.filterMap_flatMap, List.mem_flatMap] at hg
      obtain ⟨d, -, hd⟩ := hg
      simp only [deploymentGauges, gaugeCall, List.filterMap_cons, List.filterMap_nil,
        List.mem_cons, List.not_mem_nil, or_false] at hd
      rcases hd with rfl | rfl | rfl <;> simp
  · exact gaugeCalls_events service _
  · intro hst hA hP
    refine ⟨?_, ?_⟩
    · have hl := congrArg List.length hst
      simp only [List.length_map, List.length_cons, List.length_nil] at hl
      rw [hl]
      rfl
    · refine hperm.trans ?_
      rw [hst]
      have hdd : (["ACTIVE", "ACTIVE", "PRIMARY"] : List String).dedup = ["ACTIVE", "PRIMARY"] := by
        decide
      have hc1 : (["ACTIVE", "ACTIVE", "PRIMARY"] : List String).count "ACTIVE" = 2 := by decide
      have hc2 : (["ACTIVE", "ACTIVE", "PRIMARY"] : List String).count "PRIMARY" = 1 := by decide
      rw [hdd]
      simp only [List.map_cons, List.map_nil, hc1, hc2, hA, hP]
      exact List.Perm.refl _

/-- C5: every event record is reported at most once.  After `Start` from a new
scraper, over any number of cycles, and after any number of cycles from a scraper
that satisfies it, the deduplication invariant holds: no identifier was reported
twice and every identifier reported is in the seen-set.  A cycle does not report
again an identifier of the seen-set.  When two cycles in a row read the same
snapshot, the inventory-size gauge and the service gauges are sent in both (the same
gauges, up to the order of the status gauges), the second cycle reports no event, and
every record of the snapshot not seen before is reported exactly once over the two
cycles. -/
theorem events_reported_once (env : Env F) (s : Scraper F) :
    (∀ cluster n, Deduplicated (Scraper.Start env n (newScraper F cluster)).1) ∧
    (∀ n, Deduplicated s → Deduplicated (Scraper.ticks env n s).1) ∧
    (∀ id ∈ mapKeys s.events,
      (eventIds (Scraper.Scrape env s).1.calls).count id = (eventIds s.calls).count id) ∧
    (∀ snap : String → List String → DescribeServicesOutput,
      (∀ calls cluster ids, env.describeServices calls cluster ids = Except.ok (snap cluster ids)) →
      ∃ d₁ d₂ : List (Call F),
        (Scraper.Scrape env s).1.calls = s.calls ++ d₁ ∧
        (Scraper.Scrape env (Scraper.Scrape env s).1).1.calls = s.calls ++ d₁ ++ d₂ ∧
        { name := "aws.ecs.services"
          value := env.float64 s.services.length
          tags := ["cluster_name:" ++ s.Cluster]
          rate := env.float64 1 } ∈ gaugeCalls d₁ ∧
        (gaugeCalls d₁).Perm (gaugeCalls d₂) ∧
        eventIds d₂ = [] ∧
        ∀ ev ∈ (resolvedServices snap s.Cluster s.services).flatMap (fun service => service.Events),
          ev.Id ∉ mapKeys s.events → (eventIds (d₁ ++ d₂)).count ev.Id = 1) := by
  refine ⟨?_, ?_, ?_, ?_⟩
  · intro cluster n
    refine deduplicated_of_continues ?_ (Start_continues env n (newScraper F cluster))
    exact ⟨by simp [newScraper, eventIds], by simp [newScraper, eventIds]⟩
  · intro n hs
    exact deduplicated_of_continues hs (ticks_continues env n s)
  · intro id hid
    exact count_of_continues (Scrape_continues env s) id hid
  · intro snap hsnap
    obtain ⟨d₁, e₁, i₁, g₁⟩ := Scrape_snapshot env snap hsnap s
    obtain ⟨d₂, e₂, i₂, g₂⟩ := Scrape_snapshot env snap hsnap (Scraper.Scrape env s).1
    rw [e₁] at e₂ i₂ g₂
    simp only [mapKeys_append, mapKeys_marked] at e₂ i₂ g₂
    have hnil : newEvents
        (mapKeys s.events ++ (newEvents (mapKeys s.events)
          ((resolvedServices snap s.Cluster s.services).flatMap
            (fun service => service.Events))).map (fun ev => ev.Id))
        ((resolvedServices snap s.Cluster s.services).flatMap (fun service => service.Events))
        = [] :=
      newEvents_eq_nil _ _ (newEvents_covers _ _)
    rw [hnil] at i₂
    refine ⟨d₁, d₂, ?_, ?_, ?_, ?_, ?_, ?_⟩
    · rw [e₁]
    · rw [e₁, e₂]
    · exact g₁.mem_iff.mpr (List.mem_cons_self _ _)
    · exact g₁.trans g₂.symm
    · simpa using i₂
    · intro ev hev hnew
      rw [eventIds_append, i₁, i₂]
      simp only [List.map_nil, List.append_nil]
      apply List.count_eq_one_of_mem (newEvents_nodup _ _)
      rcases List.mem_append.mp (newEvents_covers (mapKeys s.events) _ ev hev) with h | h
      · exact absurd h hnew
      · exact h

/-- A cycle in which every status query succeeds, over an inventory of 25
identifiers. -/
theorem Scrape_queries_witness :
    (∀ calls cluster ids, ∃ out,
        sampleEnv.describeServices calls cluster ids = Except.ok out) ∧
      ∃ rest : List (Call Int),
        (Scraper.Scrape sampleEnv twentyFiveScraper).1.calls
          = twentyFiveScraper.calls ++ Call.gauge
              { name := "aws.ecs.services"
                value := sampleEnv.float64 twentyFiveScraper.services.length
                tags := ["cluster_name:" ++ twentyFiveScraper.Cluster]
                rate := sampleEnv.float64 1 } :: rest ∧
        describeCalls rest
          = (chunk twentyFiveScraper.services).map (fun b => (twentyFiveScraper.Cluster, b)) ∧
        (Scraper.Scrape sampleEnv twentyFiveScraper).2 = none ∧
        (twentyFiveScraper.services.length = 25 →
          (describeCalls rest).map (fun q => q.2.length) = [10, 10, 5]) ∧
        (twentyFiveScraper.services.length = 0 →
          rest = [] ∧
          sampleEnv.float64 twentyFiveScraper.services.length = sampleEnv.float64 0) :=
  ⟨fun _ cluster ids => ⟨sampleSnapshot cluster ids, rfl⟩,
    Scrape_queries sampleEnv twentyFiveScraper
      (fun _ cluster ids => ⟨sampleSnapshot cluster ids, rfl⟩)⟩

/-- A cycle over eleven identifiers in which the query of the second batch fails. -/
theorem Scrape_stops_at_failed_query_witness :
    chunk elevenScraper.services = [elevenFirstBatch] ++ ["arn:k"] :: [] ∧
      Scraper.scrapeChunks describeFailsEnv [elevenFirstBatch]
          (Scraper.gauge describeFailsEnv elevenScraper "services"
            (describeFailsEnv.float64 elevenScraper.services.length) []
            (describeFailsEnv.float64 1)).1
        = (elevenAfterFirstBatch, none) ∧
      describeFailsEnv.describeServices elevenAfterFirstBatch.calls elevenScraper.Cluster
          ["arn:k"]
        = Except.error "ClusterNotFoundException" ∧
      Scraper.Scrape describeFailsEnv elevenScraper
        = (⟨elevenScraper.Cluster, elevenScraper.services, elevenAfterFirstBatch.events,
            elevenAfterFirstBatch.calls
              ++ [Call.describeServices elevenScraper.Cluster ["arn:k"]]⟩,
           some "ClusterNotFoundException") ∧
      describeCalls (elevenAfterFirstBatch.calls
          ++ [Call.describeServices elevenScraper.Cluster ["arn:k"]])
        = describeCalls elevenScraper.calls
          ++ ([elevenFirstBatch] ++ [["arn:k"]]).map (fun b => (elevenScraper.Cluster, b)) :=
  ⟨rfl, rfl, rfl,
    Scrape_stops_at_failed_query describeFailsEnv elevenScraper elevenAfterFirstBatch
      [elevenFirstBatch] [] ["arn:k"] "ClusterNotFoundException" rfl rfl rfl⟩

/-- The pass over the sample service, whose deployments have the statuses ACTIVE,
ACTIVE and PRIMARY. -/
theorem scrape_deployment_counts_witness :
    sampleService.Deployments.map (fun d => d.Status) = ["ACTIVE", "ACTIVE", "PRIMARY"] ∧
      sampleEnv.toLower "ACTIVE" = "active" ∧
      sampleEnv.toLower "PRIMARY" = "primary" ∧
      ∃ pre statusCalls post : List (Call Int),
        (Scraper.scrape sampleEnv sampleScraper sampleService).1.calls
          = sampleScraper.calls ++ pre
            ++ Call.gauge
                { name := "aws.ecs.service.deployments"
                  value := (3 : Int)
                  tags := ["service_name:web", "service_status:ACTIVE", "cluster_name:prod"]
                  rate := (1 : Int) } :: statusCalls
            ++ post ∧
        statusCalls.Perm
          [Call.gauge
            { name := "aws.ecs.service.deployments.active"
              value := (2 : Int)
              tags := ["service_name:web", "service_status:ACTIVE", "cluster_name:prod"]
              rate := (1 : Int) },
           Call.gauge
            { name := "aws.ecs.service.deployments.primary"
              value := (1 : Int)
              tags := ["service_name:web", "service_status:ACTIVE", "cluster_name:prod"]
              rate := (1 : Int) }] := by
  obtain ⟨pre, statusCalls, post, h1, -, -, -, h5⟩ :=
    scrape_deployment_counts sampleEnv sampleScraper sampleService
  exact ⟨rfl, rfl, rfl, pre, statusCalls, post, h1, (h5 rfl rfl rfl).2⟩

/-- Two cycles of the sample scraper over the sample snapshot. -/
theorem events_reported_once_witness :
    Deduplicated sampleScraper ∧
      Deduplicated (Scraper.ticks sampleEnv 2 sampleScraper).1 ∧
      (∀ calls cluster ids,
        sampleEnv.describeServices calls cluster ids
          = Except.ok (sampleSnapshot cluster ids)) ∧
      ∃ d₁ d₂ : List (Call Int),
        (Scraper.Scrape sampleEnv sampleScraper).1.calls = sampleScraper.calls ++ d₁ ∧
        (Scraper.Scrape sampleEnv (Scraper.Scrape sampleEnv sampleScraper).1).1.calls
          = sampleScraper.calls ++ d₁ ++ d₂ ∧
        { name := "aws.ecs.services"
          value := sampleEnv.float64 sampleScraper.services.length
          tags := ["cluster_name:" ++ sampleScraper.Cluster]
          rate := sampleEnv.float64 1 } ∈ gaugeCalls d₁ ∧
        (gaugeCalls d₁).Perm (gaugeCalls d₂) ∧
        eventIds d₂ = [] ∧
        ∀ ev ∈ (resolvedServices sampleSnapshot sampleScraper.Cluster
            sampleScraper.services).flatMap (fun service => service.Events),
          ev.Id ∉ mapKeys sampleScraper.events → (eventIds (d₁ ++ d₂)).count ev.Id = 1 :=
  have hd : Deduplicated sampleScraper := ⟨List.nodup_nil, fun _ h => absurd h (List.not_mem_nil _)⟩
  ⟨hd, (events_reported_once sampleEnv sampleScraper).2.1 2 hd, fun _ _ _ => rfl,
    (events_reported_once sampleEnv sampleScraper).2.2.2 sampleSnapshot (fun _ _ _ => rfl)⟩

end Claims

end Ecsdog
